import Mathlib

/-!
# A verification development for `FocusGame.py`

This file gives a shallow embedding of the two classes of `FocusGame.py`
(`FocusGame`, the turn/validation layer, and `Board`, the state layer) and
proves properties of the embedded operations.

Conventions of the embedding:
* Python lists become Lean `List`s; a cell's stack is bottom-to-top, so the
  Python index `-1` (top of stack) is the *last* element of the Lean list.
* Python `int` becomes `Int`.  Python list indexing `l[i]` (which accepts
  `-len l ≤ i < len l`, negative indices wrapping around) is embedded by
  `pyIdx`, which yields `none` exactly when Python would raise `IndexError`.
* An operation that would raise an uncaught Python exception (e.g. indexing
  an empty stack, or subscripting `None`) returns `none`; normal returns are
  `some` of the new state paired with the returned message string.
* Loops (`for`/`while`) become explicit accumulator recursions whose shapes
  mirror the source loops statement by statement.
-/

set_option autoImplicit false

/-- A `(name, color)` pair; the source passes these around as 2-tuples
(`infoA`, `infoB`), with `info[0]` the name and `info[1]` the color. -/
structure PlayerInfo where
  name : String
  color : String
deriving DecidableEq

/-- The `Board` class: the 6×6 grid of stacks (`self._board`, a list of rows,
each row a list of cells, each cell a list of color strings, bottom-to-top),
both players' `(name, color)` info and their reserve/captured counters. -/
structure Board where
  infoA : PlayerInfo
  reserveA : Int
  capturedA : Int
  infoB : PlayerInfo
  reserveB : Int
  capturedB : Int
  cells : List (List (List String))
deriving DecidableEq

/-- Python list subscripting `l[i]` for a list of length `n`: defined (as the
wrapped-around non-negative index) exactly when `-n ≤ i < n`, otherwise Python
raises `IndexError`, embedded as `none`. -/
def pyIdx (i : Int) (n : Nat) : Option Nat :=
  if -(n : Int) ≤ i ∧ i < (n : Int) then some ((i % (n : Int)).toNat) else none

/-- Read the cell `self._board[y][x]` at (already non-negative) indices. -/
def Board.getCell (b : Board) (y x : Nat) : List String :=
  (b.cells.getD y []).getD x []

/-- Replace the cell `self._board[y][x]` at (already non-negative) indices. -/
def Board.setCell (b : Board) (y x : Nat) (st : List String) : Board :=
  { b with cells := b.cells.set y ((b.cells.getD y []).set x st) }

/-- The fixed starting grid of `Board.__init__` (`self._row0` … `self._row5`):
alternating single-piece stacks of the literal colors `"R"` and `"G"`. -/
def startRows : List (List (List String)) :=
  [[["R"], ["R"], ["G"], ["G"], ["R"], ["R"]],
   [["G"], ["G"], ["R"], ["R"], ["G"], ["G"]],
   [["R"], ["R"], ["G"], ["G"], ["R"], ["R"]],
   [["G"], ["G"], ["R"], ["R"], ["G"], ["G"]],
   [["R"], ["R"], ["G"], ["G"], ["R"], ["R"]],
   [["G"], ["G"], ["R"], ["R"], ["G"], ["G"]]]

/-- `Board.__init__`: zero counters and the fixed starting grid. -/
def Board.mkBoard (infoA infoB : PlayerInfo) : Board :=
  { infoA := infoA, reserveA := 0, capturedA := 0,
    infoB := infoB, reserveB := 0, capturedB := 0,
    cells := startRows }

/-- The loop `for number in range(0, piecesMoved): moving.append(cell[-1]);
del cell[-1]` of `Board.move_piece`.  Pops the top of the stack `st` into the
accumulator `mv` the given number of times; `none` embeds the `IndexError`
Python raises when popping an empty list. -/
def popLoop : Nat → List String → List String → Option (List String × List String)
  | 0, mv, st => some (mv, st)
  | n + 1, mv, st =>
    match st.getLast? with
    | none => none
    | some piece => popLoop n (mv ++ [piece]) st.dropLast

/-- One fuel-indexed unfolding of the loop `while moving:
dest.append(moving[-1]); del moving[-1]` of `Board.move_piece`.  The loop
removes one element of `moving` per iteration, so `moving.length` fuel is
exact; the fuel-exhausted branch is unreachable at that fuel. -/
def pushGo : Nat → List String → List String → List String
  | 0, _, dst => dst
  | _ + 1, [], dst => dst
  | f + 1, m :: rest, dst =>
    pushGo f (m :: rest).dropLast (dst ++ [(m :: rest).getLastD ""])

/-- The `while moving:` transfer loop of `Board.move_piece`. -/
def pushLoop (mv dst : List String) : List String :=
  pushGo mv.length mv dst

/-- The loop `for number in range(0, excess): moving.append(cell[0]);
del cell[0]` of `Board.move_piece`: shifts the given number of pieces off the
*bottom* of the stack into the accumulator.  (Within `Board.move_piece` the
count is `length - 5` with `length > 5`, so the `headD`/`tail` defaults for an
empty list are never exercised.) -/
def trimLoop : Nat → List String → List String → List String × List String
  | 0, mv, st => (mv, st)
  | n + 1, mv, st => trimLoop n (mv ++ [st.headD ""]) st.tail

/-- The loop `while moving: if moving[0] == own: reserve += 1 else:
captured += 1; del moving[0]` of `Board.move_piece`, threading the
`(reserve, captured)` pair. -/
def acctLoop (own : String) : List String → Int × Int → Int × Int
  | [], rk => rk
  | p :: rest, (r, k) =>
    acctLoop own rest (if p = own then (r + 1, k) else (r, k + 1))

/-- `Board.move_piece` (source lines 163–219).  NOTE: source line 174 reads
`moving = []aaaaaaaaa`, whose trailing stray token is a Python `SyntaxError`;
the function's own comment ("Move the last *piecesMoved* number of pieces from
orig to a new list (moving = [])") fixes the intended statement `moving = []`,
which is what this embedding uses.  The stages below mirror the source:
pop the top `piecesMoved` pieces of the origin stack, transfer them onto the
destination stack, shift any excess beyond 5 off the bottom of the destination
into the overflow batch, account the batch into the acting player's
reserve/captured counters, and report a win or plain success. -/
def Board.move_piece (b : Board) (playerName : String) (orig dest : Int × Int)
    (piecesMoved : Int) : Option (Board × String) :=
  match pyIdx orig.1 6 with
  | none => none
  | some y0 =>
    match pyIdx orig.2 6 with
    | none => none
    | some x0 =>
      match popLoop piecesMoved.toNat [] (b.getCell y0 x0) with
      | none => none
      | some (moving, origRest) =>
        let b1 := b.setCell y0 x0 origRest
        match pyIdx dest.1 6 with
        | none => none
        | some y =>
          match pyIdx dest.2 6 with
          | none => none
          | some x =>
            let pushed := pushLoop moving (b1.getCell y x)
            let length := pushed.length
            let ovDest := if 5 < length then trimLoop (length - 5) [] pushed
                          else ([], pushed)
            let b2 := b1.setCell y x ovDest.2
            let b3 :=
              if playerName = b2.infoA.name then
                let rk := acctLoop b2.infoA.color ovDest.1 (b2.reserveA, b2.capturedA)
                { b2 with reserveA := rk.1, capturedA := rk.2 }
              else if playerName = b2.infoB.name then
                let rk := acctLoop b2.infoB.color ovDest.1 (b2.reserveB, b2.capturedB)
                { b2 with reserveB := rk.1, capturedB := rk.2 }
              else b2
            some (b3,
              if 6 ≤ b3.capturedA then b3.infoA.name ++ " Wins!"
              else if 6 ≤ b3.capturedB then b3.infoB.name ++ " Wins!"
              else "Successfully moved")

/-- `Board.show_pieces`: the stack at the given `(y, x)` coordinates;
`none` embeds the `IndexError` for coordinates outside Python list range. -/
def Board.show_pieces (b : Board) (pos : Int × Int) : Option (List String) :=
  match pyIdx pos.1 6 with
  | none => none
  | some y =>
    match pyIdx pos.2 6 with
    | none => none
    | some x => some (b.getCell y x)

/-- The result of `Board.show_reserve` / `Board.show_captured`: a counter for
a registered name, or the sentinel string `"Invalid input"` otherwise. -/
inductive ShowResult where
  | num (n : Int)
  | invalidInput
deriving DecidableEq

/-- `Board.show_reserve`. -/
def Board.show_reserve (b : Board) (playerName : String) : ShowResult :=
  if playerName = b.infoA.name then .num b.reserveA
  else if playerName = b.infoB.name then .num b.reserveB
  else .invalidInput

/-- `Board.show_captured`. -/
def Board.show_captured (b : Board) (playerName : String) : ShowResult :=
  if playerName = b.infoA.name then .num b.capturedA
  else if playerName = b.infoB.name then .num b.capturedB
  else .invalidInput

/-- `Board.reserved_move` (source lines 260–283): append the acting player's
color to the destination cell, with the reserve decrement present only in the
player-A branch (the source omits it for player B), then delete the bottom
piece if the cell exceeds 5. -/
def Board.reserved_move (b : Board) (playerName : String) (dest : Int × Int) :
    Option (Board × String) :=
  match pyIdx dest.1 6 with
  | none => none
  | some y =>
    match pyIdx dest.2 6 with
    | none => none
    | some x =>
      let b1 :=
        if playerName = b.infoA.name then
          let bApp := b.setCell y x (b.getCell y x ++ [b.infoA.color])
          { bApp with reserveA := bApp.reserveA - 1 }
        else if playerName = b.infoB.name then
          b.setCell y x (b.getCell y x ++ [b.infoB.color])
        else b
      let b2 := if 5 < (b1.getCell y x).length
                then b1.setCell y x (b1.getCell y x).tail
                else b1
      some (b2, "Successfully moved")

/-- The `FocusGame` class: both players' info, the lazily initialized
`self._turn` / `self._offTurn` pointers (`None` before the first move), and
the owned `Board`. -/
structure FocusGame where
  infoA : PlayerInfo
  infoB : PlayerInfo
  turn : Option PlayerInfo
  offTurn : Option PlayerInfo
  board : Board
deriving DecidableEq

/-- `FocusGame.__init__`. -/
def FocusGame.mkGame (infoA infoB : PlayerInfo) : FocusGame :=
  { infoA := infoA, infoB := infoB, turn := none, offTurn := none,
    board := Board.mkBoard infoA infoB }

/-- Source lines 39–46 of `FocusGame.move_piece`: if `self._turn is None`,
set the turn to whichever registered player the caller names (and the
off-turn to the other); an unregistered caller leaves it `None`. -/
def FocusGame.lazyInit (g : FocusGame) (playerName : String) : FocusGame :=
  if g.turn = none then
    if playerName = g.infoA.name then
      { g with turn := some g.infoA, offTurn := some g.infoB }
    else if playerName = g.infoB.name then
      { g with turn := some g.infoB, offTurn := some g.infoA }
    else g
  else g

/-- `FocusGame.show_pieces`: passthrough to the board. -/
def FocusGame.show_pieces (g : FocusGame) (pos : Int × Int) : Option (List String) :=
  g.board.show_pieces pos

/-- `FocusGame.show_reserve`: passthrough to the board. -/
def FocusGame.show_reserve (g : FocusGame) (playerName : String) : ShowResult :=
  g.board.show_reserve playerName

/-- `FocusGame.show_captured`: passthrough to the board. -/
def FocusGame.show_captured (g : FocusGame) (playerName : String) : ShowResult :=
  g.board.show_captured playerName

/-- `FocusGame.move_piece` (source lines 28–78): lazy turn initialization,
then the validation chain (turn, origin bounds, destination bounds, Manhattan
distance = count, count ≤ origin stack size, origin top piece is the mover's
color), each failure returning its message with the state untouched; on
success the turn pointers swap and the board executes the move.  `none`
embeds the `TypeError` of `self._turn[0]` when the turn is still `None`
(unregistered first caller) and the `IndexError` of `show_pieces(orig)[-1]`
on an empty origin stack. -/
def FocusGame.move_piece (g0 : FocusGame) (playerName : String)
    (orig dest : Int × Int) (piecesMoved : Int) : Option (FocusGame × String) :=
  let g := g0.lazyInit playerName
  match g.turn with
  | none => none
  | some t =>
    if t.name ≠ playerName then some (g, "Not your turn")
    else if orig.1 < 0 ∨ 5 < orig.1 ∨ orig.2 < 0 ∨ 5 < orig.2 then
      some (g, "Invalid location")
    else if dest.1 < 0 ∨ 5 < dest.1 ∨ dest.2 < 0 ∨ 5 < dest.2 then
      some (g, "Invalid location")
    else if |orig.1 - dest.1| + |orig.2 - dest.2| ≠ piecesMoved then
      some (g, "Invalid number of spaces")
    else
      match g.board.show_pieces orig with
      | none => none
      | some origStack =>
        if (origStack.length : Int) < piecesMoved then
          some (g, "Invalid number of pieces")
        else
          match origStack.getLast? with
          | none => none
          | some top =>
            if top ≠ t.color then
              some (g, "Invalid selection -- not your color")
            else
              let g1 := { g with turn := g.offTurn, offTurn := g.turn }
              match g1.board.move_piece playerName orig dest piecesMoved with
              | none => none
              | some (b1, msg) => some ({ g1 with board := b1 }, msg)

/-- `FocusGame.reserved_move` (source lines 108–124): reject only when
`show_reserve(playerName) == 0` (note the sentinel string for unregistered
names is *not* equal to 0, so unregistered callers pass the check); otherwise
swap the turn pointers and delegate to the board. -/
def FocusGame.reserved_move (g : FocusGame) (playerName : String)
    (dest : Int × Int) : Option (FocusGame × String) :=
  if g.show_reserve playerName = ShowResult.num 0 then
    some (g, "No pieces in reserve")
  else
    let g1 := { g with turn := g.offTurn, offTurn := g.turn }
    match g1.board.reserved_move playerName dest with
    | none => none
    | some (b1, msg) => some ({ g1 with board := b1 }, msg)

/-! ## Well-formedness of the grid and cell access lemmas -/

/-- The grid shape maintained by every operation: 6 rows of 6 cells. -/
def Board.WF (b : Board) : Prop :=
  b.cells.length = 6 ∧ ∀ r ∈ b.cells, r.length = 6

theorem pyIdx_eq_toNat {i : Int} (h0 : 0 ≤ i) (h6 : i < 6) :
    pyIdx i 6 = some i.toNat := by
  unfold pyIdx
  rw [if_pos ⟨by omega, by exact_mod_cast h6⟩, Int.emod_eq_of_lt h0 (by exact_mod_cast h6)]

theorem Board.WF.row_length {b : Board} (hb : b.WF) {y : Nat} (hy : y < 6) :
    (b.cells.getD y []).length = 6 := by
  obtain ⟨hlen, hrows⟩ := hb
  have hy' : y < b.cells.length := by omega
  rw [List.getD_eq_getElem?_getD, List.getElem?_eq_getElem hy']
  exact hrows _ (b.cells.getElem_mem hy')

theorem Board.getCell_setCell_self {b : Board} (hb : b.WF) {y x : Nat}
    (hy : y < 6) (hx : x < 6) (st : List String) :
    (b.setCell y x st).getCell y x = st := by
  have hrow := hb.row_length hy
  have hlen := hb.1
  have hy' : y < b.cells.length := by omega
  have hx' : x < (b.cells.getD y []).length := by omega
  simp [Board.setCell, Board.getCell, List.getD_eq_getElem?_getD,
    List.getElem?_set_self hy', List.getElem?_set_self (by simpa using hx')]

theorem Board.getCell_setCell_ne (b : Board) {y x y' x' : Nat} (st : List String)
    (h : ¬(y' = y ∧ x' = x)) :
    (b.setCell y x st).getCell y' x' = b.getCell y' x' := by
  by_cases hy : y' = y
  · subst hy
    have hx : x' ≠ x := fun hx => h ⟨rfl, hx⟩
    simp only [Board.setCell, Board.getCell, List.getD_eq_getElem?_getD]
    by_cases hylen : y' < b.cells.length
    · rw [List.getElem?_set_self hylen]
      simp [List.getElem?_set_ne (Ne.symm hx)]
    · rw [List.getElem?_set_self' ]
      have : b.cells[y']? = none := by
        rw [List.getElem?_eq_none_iff]; omega
      simp [this]
  · simp [Board.setCell, Board.getCell, List.getD_eq_getElem?_getD,
      List.getElem?_set_ne (Ne.symm hy)]

theorem Board.WF_setCell {b : Board} (hb : b.WF) (y x : Nat) (st : List String) :
    (b.setCell y x st).WF := by
  obtain ⟨hlen, hrows⟩ := hb
  refine ⟨by simpa [Board.setCell] using hlen, ?_⟩
  intro r hr
  simp only [Board.setCell] at hr
  by_cases hy : y < b.cells.length
  · rcases List.mem_or_eq_of_mem_set hr with hr' | rfl
    · exact hrows _ hr'
    · rw [List.length_set, List.getD_eq_getElem?_getD, List.getElem?_eq_getElem hy]
      exact hrows _ (b.cells.getElem_mem hy)
  · rw [List.set_eq_of_length_le (by omega)] at hr
    exact hrows _ hr

/-! ## Closed forms for the four loops of `Board.move_piece` -/

theorem popLoop_spec : ∀ (n : Nat) (mv st : List String), n ≤ st.length →
    popLoop n mv st = some (mv ++ st.reverse.take n, (st.reverse.drop n).reverse) := by
  intro n
  induction n with
  | zero => intro mv st h; simp [popLoop]
  | succ n ih =>
    intro mv st h
    rcases st.eq_nil_or_concat with rfl | ⟨L, b, rfl⟩
    · simp at h
    · simp only [List.concat_eq_append] at h ⊢
      have hL : n ≤ L.length := by
        simp [List.length_append] at h; omega
      simp only [popLoop, List.getLast?_concat, List.dropLast_concat, ih _ _ hL,
        List.reverse_append, List.reverse_cons, List.reverse_nil, List.nil_append,
        List.singleton_append, List.take_succ_cons, List.drop_succ_cons]
      simp [List.append_assoc]

theorem pushGo_spec : ∀ (f : Nat) (mv dst : List String), mv.length ≤ f →
    pushGo f mv dst = dst ++ mv.reverse := by
  intro f
  induction f with
  | zero =>
    intro mv dst h
    have : mv = [] := List.eq_nil_of_length_eq_zero (by omega)
    subst this; simp [pushGo]
  | succ f ih =>
    intro mv dst h
    match mv with
    | [] => simp [pushGo]
    | m :: rest =>
      rcases (m :: rest).eq_nil_or_concat with hnil | ⟨L, b, hLb⟩
      · simp at hnil
      · simp only [List.concat_eq_append] at hLb
        have hstep : pushGo (f + 1) (m :: rest) dst =
            pushGo f (m :: rest).dropLast (dst ++ [(m :: rest).getLastD ""]) := rfl
        have hlenL : L.length ≤ f := by
          have h1 : (m :: rest).length = L.length + 1 := by
            rw [hLb]; simp
          simp at h h1; omega
        rw [hstep, hLb, List.dropLast_concat, List.getLastD_concat,
          ih _ _ hlenL, List.reverse_append]
        simp

theorem pushLoop_spec (mv dst : List String) : pushLoop mv dst = dst ++ mv.reverse :=
  pushGo_spec _ _ _ le_rfl

theorem trimLoop_spec : ∀ (n : Nat) (mv st : List String), n ≤ st.length →
    trimLoop n mv st = (mv ++ st.take n, st.drop n) := by
  intro n
  induction n with
  | zero => intro mv st h; simp [trimLoop]
  | succ n ih =>
    intro mv st h
    match st with
    | [] => simp at h
    | s :: tl =>
      have htl : n ≤ tl.length := by simp at h; omega
      simp only [trimLoop, List.headD_cons, List.tail_cons, ih _ _ htl,
        List.take_succ_cons, List.drop_succ_cons]
      simp

theorem acctLoop_spec (own : String) : ∀ (ps : List String) (r k : Int),
    acctLoop own ps (r, k) =
      (r + ((ps.filter (fun p => p == own)).length : Int),
       k + ((ps.filter (fun p => !(p == own))).length : Int)) := by
  intro ps
  induction ps with
  | nil => intro r k; simp [acctLoop]
  | cons p rest ih =>
    intro r k
    by_cases hp : p = own
    · simp only [acctLoop, if_pos hp, ih, List.filter_cons]
      simp [hp, Prod.ext_iff]
      ring
    · simp only [acctLoop, if_neg hp, ih, List.filter_cons]
      simp [hp, Prod.ext_iff]
      ring

/-! ## Closed-form description of a validated move -/

/-- What remains of the origin stack after popping `cnt` pieces. -/
def restOf (st : List String) (cnt : Nat) : List String :=
  (st.reverse.drop cnt).reverse

/-- The moved sub-stack in its original bottom-to-top order. -/
def movedRev (st : List String) (cnt : Nat) : List String :=
  (st.reverse.take cnt).reverse

theorem restOf_eq_take {st : List String} {cnt : Nat} (h : cnt ≤ st.length) :
    restOf st cnt = st.take (st.length - cnt) := by
  have hsplit := List.take_append_drop (st.length - cnt) st
  have hdroplen : (st.drop (st.length - cnt)).length = cnt := by
    rw [List.length_drop]; omega
  unfold restOf
  conv_lhs => rw [← hsplit]
  rw [List.reverse_append,
    List.drop_left' (by rw [List.length_reverse]; exact hdroplen),
    List.reverse_reverse]

theorem movedRev_eq_drop {st : List String} {cnt : Nat} (h : cnt ≤ st.length) :
    movedRev st cnt = st.drop (st.length - cnt) := by
  have hsplit := List.take_append_drop (st.length - cnt) st
  have hdroplen : (st.drop (st.length - cnt)).length = cnt := by
    rw [List.length_drop]; omega
  unfold movedRev
  conv_lhs => rw [← hsplit]
  rw [List.reverse_append,
    List.take_left' (by rw [List.length_reverse]; exact hdroplen),
    List.reverse_reverse]

theorem length_movedRev (st : List String) (cnt : Nat) :
    (movedRev st cnt).length = min cnt st.length := by
  simp [movedRev]

theorem length_restOf (st : List String) (cnt : Nat) :
    (restOf st cnt).length = st.length - cnt := by
  simp [restOf]

/-- The stack sitting at the destination after the pop stage (reading through
the updated board handles the `orig = dest` aliasing of the mutable Python
lists for free) with the moved sub-stack pushed on top. -/
def pushedOf (b : Board) (yo xo yd xd cnt : Nat) : List String :=
  (b.setCell yo xo (restOf (b.getCell yo xo) cnt)).getCell yd xd ++
    movedRev (b.getCell yo xo) cnt

/-- The overflow batch: whatever exceeds 5 pieces, taken off the bottom. -/
def overflowOf (b : Board) (yo xo yd xd cnt : Nat) : List String :=
  let p := pushedOf b yo xo yd xd cnt
  if 5 < p.length then p.take (p.length - 5) else []

/-- The destination stack once the overflow is removed. -/
def destFinalOf (b : Board) (yo xo yd xd cnt : Nat) : List String :=
  let p := pushedOf b yo xo yd xd cnt
  if 5 < p.length then p.drop (p.length - 5) else p

/-- Overflow accounting: the acting player's reserve grows by the number of
own-color pieces in the batch and their captured counter by the number of
other-color pieces; an unregistered name changes nothing. -/
def moveCounters (b : Board) (playerName : String) (ov : List String) : Board :=
  if playerName = b.infoA.name then
    { b with
      reserveA := b.reserveA + ((ov.filter (fun p => p == b.infoA.color)).length : Int),
      capturedA := b.capturedA + ((ov.filter (fun p => !(p == b.infoA.color))).length : Int) }
  else if playerName = b.infoB.name then
    { b with
      reserveB := b.reserveB + ((ov.filter (fun p => p == b.infoB.color)).length : Int),
      capturedB := b.capturedB + ((ov.filter (fun p => !(p == b.infoB.color))).length : Int) }
  else b

/-- The win-check message of `Board.move_piece`: player A's captured counter
is examined first, then player B's. -/
def moveMsg (b : Board) : String :=
  if 6 ≤ b.capturedA then b.infoA.name ++ " Wins!"
  else if 6 ≤ b.capturedB then b.infoB.name ++ " Wins!"
  else "Successfully moved"

/-- The closed form of a (pre-validated) `Board.move_piece` call. -/
def moveOutcome (b : Board) (playerName : String) (yo xo yd xd cnt : Nat) :
    Board × String :=
  let b2 := (b.setCell yo xo (restOf (b.getCell yo xo) cnt)).setCell yd xd
    (destFinalOf b yo xo yd xd cnt)
  let b3 := moveCounters b2 playerName (overflowOf b yo xo yd xd cnt)
  (b3, moveMsg b3)

theorem board_move_spec (b : Board) (playerName : String) {oy ox dy dx : Int}
    (c : Int)
    (hoy : 0 ≤ oy) (hoy5 : oy ≤ 5) (hox : 0 ≤ ox) (hox5 : ox ≤ 5)
    (hdy : 0 ≤ dy) (hdy5 : dy ≤ 5) (hdx : 0 ≤ dx) (hdx5 : dx ≤ 5)
    (hc : c.toNat ≤ (b.getCell oy.toNat ox.toNat).length) :
    b.move_piece playerName (oy, ox) (dy, dx) c =
      some (moveOutcome b playerName oy.toNat ox.toNat dy.toNat dx.toNat c.toNat) := by
  have h1 : pyIdx oy 6 = some oy.toNat := pyIdx_eq_toNat hoy (by omega)
  have h2 : pyIdx ox 6 = some ox.toNat := pyIdx_eq_toNat hox (by omega)
  have h3 : pyIdx dy 6 = some dy.toNat := pyIdx_eq_toNat hdy (by omega)
  have h4 : pyIdx dx 6 = some dx.toNat := pyIdx_eq_toNat hdx (by omega)
  have hpop := popLoop_spec c.toNat [] (b.getCell oy.toNat ox.toNat) hc
  simp only [Board.move_piece, h1, h2, h3, h4, hpop, List.nil_append]
  set orig0 := b.getCell oy.toNat ox.toNat with horig0
  have hmoving : (orig0.reverse.take c.toNat).reverse = movedRev orig0 c.toNat := rfl
  have hrest : (orig0.reverse.drop c.toNat).reverse = restOf orig0 c.toNat := rfl
  rw [hrest]
  set b1 := b.setCell oy.toNat ox.toNat (restOf orig0 c.toNat) with hb1
  rw [pushLoop_spec, hmoving]
  have hpushed : b1.getCell dy.toNat dx.toNat ++ movedRev orig0 c.toNat =
      pushedOf b oy.toNat ox.toNat dy.toNat dx.toNat c.toNat := rfl
  rw [hpushed]
  set p := pushedOf b oy.toNat ox.toNat dy.toNat dx.toNat c.toNat with hp
  by_cases hlen : 5 < p.length
  · have htrim := trimLoop_spec (p.length - 5) [] p (by omega)
    rw [if_pos hlen, htrim]
    have hov : overflowOf b oy.toNat ox.toNat dy.toNat dx.toNat c.toNat =
        p.take (p.length - 5) := by
      simp only [overflowOf, ← hp, if_pos hlen]
    have hdf : destFinalOf b oy.toNat ox.toNat dy.toNat dx.toNat c.toNat =
        p.drop (p.length - 5) := by
      simp only [destFinalOf, ← hp, if_pos hlen]
    simp only [moveOutcome, ← hb1, hov, hdf, List.nil_append, moveCounters, moveMsg]
    set b2 := b1.setCell dy.toNat dx.toNat (p.drop (p.length - 5)) with hb2
    by_cases hA : playerName = b2.infoA.name
    · simp [hA, acctLoop_spec]
    · by_cases hB : playerName = b2.infoB.name
      · simp [hA, hB, acctLoop_spec]
      · simp [hA, hB]
  · rw [if_neg hlen]
    have hov : overflowOf b oy.toNat ox.toNat dy.toNat dx.toNat c.toNat = [] := by
      simp only [overflowOf, ← hp, if_neg hlen]
    have hdf : destFinalOf b oy.toNat ox.toNat dy.toNat dx.toNat c.toNat = p := by
      simp only [destFinalOf, ← hp, if_neg hlen]
    simp only [moveOutcome, ← hb1, hov, hdf, moveCounters, moveMsg]
    set b2 := b1.setCell dy.toNat dx.toNat p with hb2
    by_cases hA : playerName = b2.infoA.name
    · simp [hA, acctLoop_spec]
    · by_cases hB : playerName = b2.infoB.name
      · simp [hA, hB, acctLoop_spec]
      · simp [hA, hB]

/-! ## Game-level specifications -/

theorem FocusGame.lazyInit_of_set {g : FocusGame} {t : PlayerInfo}
    (ht : g.turn = some t) (playerName : String) : g.lazyInit playerName = g := by
  simp [FocusGame.lazyInit, ht]

theorem board_show_pieces_eq (b : Board) (oy ox : Int)
    (hoy : 0 ≤ oy) (hoy5 : oy ≤ 5) (hox : 0 ≤ ox) (hox5 : ox ≤ 5) :
    b.show_pieces (oy, ox) = some (b.getCell oy.toNat ox.toNat) := by
  simp only [Board.show_pieces, pyIdx_eq_toNat hoy (by omega),
    pyIdx_eq_toNat hox (by omega)]

/-- An accepted `FocusGame.move_piece` call: all six validations pass, the
turn pointers swap, and the board outcome is the closed form `moveOutcome`. -/
theorem game_move_spec (g : FocusGame) (t : PlayerInfo) (playerName : String)
    {oy ox dy dx : Int} (c : Int)
    (ht : g.turn = some t) (hn : t.name = playerName)
    (hbnd : 0 ≤ oy ∧ oy ≤ 5 ∧ 0 ≤ ox ∧ ox ≤ 5 ∧ 0 ≤ dy ∧ dy ≤ 5 ∧ 0 ≤ dx ∧ dx ≤ 5)
    (hdist : |oy - dy| + |ox - dx| = c)
    (hcnt : c ≤ ((g.board.getCell oy.toNat ox.toNat).length : Int))
    (htop : (g.board.getCell oy.toNat ox.toNat).getLast? = some t.color) :
    g.move_piece playerName (oy, ox) (dy, dx) c =
      some ({ g with
              turn := g.offTurn
              offTurn := g.turn
              board := (moveOutcome g.board playerName oy.toNat ox.toNat
                          dy.toNat dx.toNat c.toNat).1 },
            (moveOutcome g.board playerName oy.toNat ox.toNat
               dy.toNat dx.toNat c.toNat).2) := by
  obtain ⟨h1, h2, h3, h4, h5, h6, h7, h8⟩ := hbnd
  have hc0 : 0 ≤ c := by
    rw [← hdist]; exact add_nonneg (abs_nonneg _) (abs_nonneg _)
  have hcn : c.toNat ≤ (g.board.getCell oy.toNat ox.toNat).length := by omega
  have hmv := board_move_spec g.board playerName c h1 h2 h3 h4 h5 h6 h7 h8 hcn
  simp only [FocusGame.move_piece, FocusGame.lazyInit_of_set ht, ht,
    board_show_pieces_eq g.board oy ox h1 h2 h3 h4, htop]
  rw [if_neg (by simp [hn]), if_neg (by omega), if_neg (by omega),
    if_neg (by simp; omega)]
  rw [if_neg (by omega), if_neg (by simp)]
  have hb' : ({ g with turn := g.offTurn, offTurn := g.turn } : FocusGame).board
      = g.board := rfl
  rw [hb', hmv]

/-- Failing `move_piece` validation 1 (wrong turn) returns the state as-is. -/
theorem move_fail_wrong_turn {g : FocusGame} {t : PlayerInfo} {playerName : String}
    (ht : g.turn = some t) (h : t.name ≠ playerName) (orig dest : Int × Int)
    (c : Int) :
    g.move_piece playerName orig dest c = some (g, "Not your turn") := by
  simp [FocusGame.move_piece, FocusGame.lazyInit_of_set ht, ht, h]

/-- Failing `move_piece` validation 2 (origin out of bounds). -/
theorem move_fail_oob_orig {g : FocusGame} {t : PlayerInfo} {playerName : String}
    (ht : g.turn = some t) (hn : t.name = playerName) {orig : Int × Int}
    (ho : orig.1 < 0 ∨ 5 < orig.1 ∨ orig.2 < 0 ∨ 5 < orig.2)
    (dest : Int × Int) (c : Int) :
    g.move_piece playerName orig dest c = some (g, "Invalid location") := by
  simp [FocusGame.move_piece, FocusGame.lazyInit_of_set ht, ht, hn, ho]

/-- Failing `move_piece` validation 3 (destination out of bounds). -/
theorem move_fail_oob_dest {g : FocusGame} {t : PlayerInfo} {playerName : String}
    (ht : g.turn = some t) (hn : t.name = playerName) {orig dest : Int × Int}
    (ho : ¬(orig.1 < 0 ∨ 5 < orig.1 ∨ orig.2 < 0 ∨ 5 < orig.2))
    (hd : dest.1 < 0 ∨ 5 < dest.1 ∨ dest.2 < 0 ∨ 5 < dest.2) (c : Int) :
    g.move_piece playerName orig dest c = some (g, "Invalid location") := by
  simp [FocusGame.move_piece, FocusGame.lazyInit_of_set ht, ht, hn, ho, hd]

/-- Failing `move_piece` validation 4 (Manhattan distance ≠ count). -/
theorem move_fail_distance {g : FocusGame} {t : PlayerInfo} {playerName : String}
    (ht : g.turn = some t) (hn : t.name = playerName) {orig dest : Int × Int}
    (ho : ¬(orig.1 < 0 ∨ 5 < orig.1 ∨ orig.2 < 0 ∨ 5 < orig.2))
    (hd : ¬(dest.1 < 0 ∨ 5 < dest.1 ∨ dest.2 < 0 ∨ 5 < dest.2)) {c : Int}
    (hdist : |orig.1 - dest.1| + |orig.2 - dest.2| ≠ c) :
    g.move_piece playerName orig dest c = some (g, "Invalid number of spaces") := by
  simp [FocusGame.move_piece, FocusGame.lazyInit_of_set ht, ht, hn, ho, hd, hdist]

/-- Failing `move_piece` validation 5 (count exceeds origin stack size). -/
theorem move_fail_pieces {g : FocusGame} {t : PlayerInfo} {playerName : String}
    (ht : g.turn = some t) (hn : t.name = playerName) {oy ox dy dx : Int}
    (ho : ¬(oy < 0 ∨ 5 < oy ∨ ox < 0 ∨ 5 < ox))
    (hd : ¬(dy < 0 ∨ 5 < dy ∨ dx < 0 ∨ 5 < dx)) {c : Int}
    (hdist : |oy - dy| + |ox - dx| = c)
    (hlen : ((g.board.getCell oy.toNat ox.toNat).length : Int) < c) :
    g.move_piece playerName (oy, ox) (dy, dx) c =
      some (g, "Invalid number of pieces") := by
  push_neg at ho hd
  have hsp := board_show_pieces_eq g.board oy ox ho.1 (by omega) (by omega)
    (by omega)
  simp [FocusGame.move_piece, FocusGame.lazyInit_of_set ht, ht, hn, hdist, hsp, hlen]
  rw [if_neg (by omega), if_neg (by omega)]

/-- Failing `move_piece` validation 6 (origin top piece is not the mover's
color). -/
theorem move_fail_color {g : FocusGame} {t : PlayerInfo} {playerName : String}
    (ht : g.turn = some t) (hn : t.name = playerName) {oy ox dy dx : Int}
    (ho : ¬(oy < 0 ∨ 5 < oy ∨ ox < 0 ∨ 5 < ox))
    (hd : ¬(dy < 0 ∨ 5 < dy ∨ dx < 0 ∨ 5 < dx)) {c : Int}
    (hdist : |oy - dy| + |ox - dx| = c)
    (hlen : c ≤ ((g.board.getCell oy.toNat ox.toNat).length : Int))
    {top : String} (htop : (g.board.getCell oy.toNat ox.toNat).getLast? = some top)
    (hcol : top ≠ t.color) :
    g.move_piece playerName (oy, ox) (dy, dx) c =
      some (g, "Invalid selection -- not your color") := by
  push_neg at ho hd
  have hsp := board_show_pieces_eq g.board oy ox ho.1 (by omega) (by omega)
    (by omega)
  simp [FocusGame.move_piece, FocusGame.lazyInit_of_set ht, ht, hn, hdist, hsp,
    htop, hcol, not_lt.mpr hlen]
  rw [if_neg (by omega), if_neg (by omega)]

/-- Failing `reserved_move` validation (empty reserve) returns the state
as-is, without a turn swap. -/
theorem rsv_fail_empty {g : FocusGame} {playerName : String}
    (h : g.show_reserve playerName = ShowResult.num 0) (dest : Int × Int) :
    g.reserved_move playerName dest = some (g, "No pieces in reserve") := by
  simp [FocusGame.reserved_move, h]

/-- The closed form of a `Board.reserved_move` call at resolved indices. -/
def rsvOutcome (b : Board) (playerName : String) (y x : Nat) : Board :=
  let b1 :=
    if playerName = b.infoA.name then
      let bApp := b.setCell y x (b.getCell y x ++ [b.infoA.color])
      { bApp with reserveA := bApp.reserveA - 1 }
    else if playerName = b.infoB.name then
      b.setCell y x (b.getCell y x ++ [b.infoB.color])
    else b
  if 5 < (b1.getCell y x).length then b1.setCell y x (b1.getCell y x).tail else b1

theorem board_rsv_spec (b : Board) (playerName : String) {dy dx : Int}
    (hdy : 0 ≤ dy) (hdy5 : dy ≤ 5) (hdx : 0 ≤ dx) (hdx5 : dx ≤ 5) :
    b.reserved_move playerName (dy, dx) =
      some (rsvOutcome b playerName dy.toNat dx.toNat, "Successfully moved") := by
  simp only [Board.reserved_move, pyIdx_eq_toNat hdy (by omega),
    pyIdx_eq_toNat hdx (by omega), rsvOutcome]

/-- An accepted `FocusGame.reserved_move` call: the reserve check passes, the
turn pointers swap (with no turn validation at all), and the board applies
`rsvOutcome`. -/
theorem game_rsv_spec (g : FocusGame) (playerName : String) {dy dx : Int}
    (h : g.show_reserve playerName ≠ ShowResult.num 0)
    (hdy : 0 ≤ dy) (hdy5 : dy ≤ 5) (hdx : 0 ≤ dx) (hdx5 : dx ≤ 5) :
    g.reserved_move playerName (dy, dx) =
      some ({ g with
              turn := g.offTurn
              offTurn := g.turn
              board := rsvOutcome g.board playerName dy.toNat dx.toNat },
            "Successfully moved") := by
  have hb : ({ g with turn := g.offTurn, offTurn := g.turn } : FocusGame).board
      = g.board := rfl
  simp only [FocusGame.reserved_move, if_neg h]
  rw [hb, board_rsv_spec g.board playerName hdy hdy5 hdx hdx5]

/-! ## Message disambiguation: win announcements vs. the fixed messages -/

theorem getLast?_append_right {α : Type} (l1 l2 : List α) (h : l2 ≠ []) :
    (l1 ++ l2).getLast? = l2.getLast? := by
  rw [← List.head?_reverse, ← List.head?_reverse, List.reverse_append]
  match hrev : l2.reverse with
  | [] => exact absurd (by simpa using hrev) h
  | a :: tl => simp

/-- A win announcement ends in an exclamation mark, so it never collides with
a message whose final character is something else. -/
theorem wins_ne_of_getLast (s m : String) (hm : m.data.getLast? ≠ some (Char.ofNat 33)) :
    s ++ " Wins!" ≠ m := by
  intro h
  apply hm
  rw [← h, String.data_append, getLast?_append_right _ _ (by decide)]
  decide

theorem wins_inj {a b : String} (h : a ++ " Wins!" = b ++ " Wins!") : a = b := by
  have hd : a.data ++ (" Wins!").data = b.data ++ (" Wins!").data := by
    rw [← String.data_append, ← String.data_append, h]
  exact String.ext ((List.append_left_injective _).eq_iff.mp hd)

/-- The `show_pieces(orig)[-1]` crash branch: when the validated origin stack
is empty, Python raises `IndexError` at validation 6. -/
theorem move_crash_empty {g : FocusGame} {t : PlayerInfo} {playerName : String}
    (ht : g.turn = some t) (hn : t.name = playerName) {oy ox dy dx : Int}
    (ho : ¬(oy < 0 ∨ 5 < oy ∨ ox < 0 ∨ 5 < ox))
    (hd : ¬(dy < 0 ∨ 5 < dy ∨ dx < 0 ∨ 5 < dx)) {c : Int}
    (hdist : |oy - dy| + |ox - dx| = c)
    (hlen : c ≤ ((g.board.getCell oy.toNat ox.toNat).length : Int))
    (htop : (g.board.getCell oy.toNat ox.toNat).getLast? = none) :
    g.move_piece playerName (oy, ox) (dy, dx) c = none := by
  push_neg at ho hd
  have hsp := board_show_pieces_eq g.board oy ox ho.1 (by omega) (by omega)
    (by omega)
  simp [FocusGame.move_piece, FocusGame.lazyInit_of_set ht, ht, hn, hdist, hsp,
    htop, not_lt.mpr hlen]
  rw [if_neg (by omega), if_neg (by omega)]

/-! ## Concrete game states used by the scenario theorems -/

def infoAlice : PlayerInfo := ⟨"Alice", "R"⟩

def infoBob : PlayerInfo := ⟨"Bob", "G"⟩

/-- A fresh session `FocusGame(("Alice", "R"), ("Bob", "G"))`. -/
def gAB : FocusGame := FocusGame.mkGame infoAlice infoBob

/-- The fresh session with the turn already initialized to Alice (the state
after calling `move_piece` once with `playerName = "Alice"` and before the
remaining validations run, or any state reached once Alice is to move). -/
def gW : FocusGame :=
  { infoA := infoAlice, infoB := infoBob, turn := some infoAlice,
    offTurn := some infoBob, board := Board.mkBoard infoAlice infoBob }

/-- Run one `move_piece` call and keep the new state (the state is unchanged
when the embedding reports a crash, which never happens in the scenarios
below). -/
def mvState (g : FocusGame) (playerName : String) (orig dest : Int × Int)
    (c : Int) : FocusGame :=
  ((g.move_piece playerName orig dest c).map Prod.fst).getD g

/-- After Alice plays (0,0)→(0,1) and Bob plays (1,0)→(1,1), Alice is to move
and the stack at (0,1) is `["R", "R"]`. -/
def gDiag : FocusGame :=
  mvState (mvState gAB "Alice" (0, 0) (0, 1) 1) "Bob" (1, 0) (1, 1) 1

/-! ## C1 -/

/-- C1, counterexample.  The distance check accepts the zero-space move
`move("Alice", (0,0), (0,0), 0)` on a fresh session (origin equals
destination, so zero spaces are moved), and accepts the diagonal move
`move("Alice", (0,1), (1,2), 2)` in the reachable state `gDiag` (row 0 ≠
row 1 and column 1 ≠ column 2, so origin and destination share neither a row
nor a column), refuting the claim that every accepted move is axis-aligned
and moves a strictly positive number of spaces. -/
theorem C1_counterexample :
    ((gAB.move_piece "Alice" (0, 0) (0, 0) 0).map Prod.snd =
        some "Successfully moved") ∧
    (|(0 : Int) - 0| + |(0 : Int) - 0| = 0) ∧
    ((gDiag.move_piece "Alice" (0, 1) (1, 2) 2).map Prod.snd =
        some "Successfully moved") ∧
    ((0 : Int) ≠ 1 ∧ (1 : Int) ≠ 2) := by
  refine ⟨by decide, by decide, by decide, by decide, by decide⟩

/-- C1, amended.  For every `move_piece` call that passes the turn and bounds
checks, the call fails with "Invalid number of spaces" *iff* the Manhattan
distance `|Δrow| + |Δcol|` differs from `piecesMoved`; the check rejects
nothing else, so accepted moves need not be axis-aligned (diagonal paths with
matching distance pass) and need not move a positive number of spaces
(`orig = dest` with `piecesMoved = 0` passes). -/
theorem C1_invalid_distance_iff (g : FocusGame) (t : PlayerInfo)
    (playerName : String) {oy ox dy dx : Int} (c : Int)
    (ht : g.turn = some t) (hn : t.name = playerName)
    (hbnd : 0 ≤ oy ∧ oy ≤ 5 ∧ 0 ≤ ox ∧ ox ≤ 5 ∧ 0 ≤ dy ∧ dy ≤ 5 ∧ 0 ≤ dx ∧ dx ≤ 5) :
    ((g.move_piece playerName (oy, ox) (dy, dx) c).map Prod.snd =
        some "Invalid number of spaces") ↔ |oy - dy| + |ox - dx| ≠ c := by
  obtain ⟨h1, h2, h3, h4, h5, h6, h7, h8⟩ := hbnd
  by_cases hdist : |oy - dy| + |ox - dx| = c
  · refine iff_of_false ?_ (fun hne => hne hdist)
    intro hmsg
    by_cases hlen : ((g.board.getCell oy.toNat ox.toNat).length : Int) < c
    · rw [move_fail_pieces ht hn (by omega) (by omega) hdist hlen] at hmsg
      simp at hmsg
    · push_neg at hlen
      cases hgl : (g.board.getCell oy.toNat ox.toNat).getLast? with
      | none =>
        rw [move_crash_empty ht hn (by omega) (by omega) hdist hlen hgl] at hmsg
        simp at hmsg
      | some top =>
        by_cases hcol : top = t.color
        · rw [game_move_spec g t playerName c ht hn
            ⟨h1, h2, h3, h4, h5, h6, h7, h8⟩ hdist hlen (hcol ▸ hgl)] at hmsg
          simp only [Option.map_some', Option.some.injEq] at hmsg
          revert hmsg
          simp only [moveOutcome, moveMsg]
          split_ifs with hA hB
          · exact fun hmsg => wins_ne_of_getLast _ _ (by decide) hmsg
          · exact fun hmsg => wins_ne_of_getLast _ _ (by decide) hmsg
          · exact fun hmsg => absurd hmsg (by decide)
        · rw [move_fail_color ht hn (by omega) (by omega) hdist hlen hgl hcol] at hmsg
          simp at hmsg
  · refine iff_of_true ?_ hdist
    rw [move_fail_distance ht hn (by omega) (by omega) hdist]
    simp

/-- C1, witness: in state `gW` (Alice to move), the in-bounds move
(0,0)→(0,3) declaring 1 piece has Manhattan distance 3 ≠ 1 and is rejected
with "Invalid number of spaces". -/
theorem C1_witness :
    gW.turn = some infoAlice ∧ infoAlice.name = "Alice" ∧
    (((gW.move_piece "Alice" ((0 : Int), (0 : Int)) ((0 : Int), (3 : Int)) 1).map
        Prod.snd = some "Invalid number of spaces") ↔
      |(0 : Int) - 0| + |(0 : Int) - 3| ≠ 1) :=
  ⟨rfl, rfl,
    C1_invalid_distance_iff gW infoAlice "Alice" 1 rfl rfl (by decide)⟩

/-! ## C2 -/

/-- C2, counterexample.  On a fresh session the very first `move_piece` call,
by Alice with an out-of-bounds origin, fails with "Invalid location" — yet it
changes the turn pointer from unset (`None`) to Alice, because the lazy
turn initialization of lines 40–46 runs before any validation. -/
theorem C2_counterexample :
    gAB.turn = none ∧
    (gAB.move_piece "Alice" (9, 9) (0, 0) 1).map (fun p => (p.1.turn, p.2)) =
      some (some infoAlice, "Invalid location") :=
  ⟨rfl, by decide⟩

/-- C2, amended.  Once the turn pointer is set, every validation failure of
`move_piece` (wrong turn, origin or destination out of bounds, wrong
Manhattan distance, too many pieces, wrong top color) and the
empty-reserve failure of `reserved_move` return the *identical* state `g`:
board cells, reserves, captures and both turn pointers unchanged.  (The only
deviation, forced by the counterexample, is that a failing first-ever
`move_piece` call may still initialize the previously unset turn pointer to
the caller.) -/
theorem C2_failures_leave_state_unchanged (g : FocusGame) (t : PlayerInfo)
    (ht : g.turn = some t) :
    (∀ playerName orig dest c, t.name ≠ playerName →
      g.move_piece playerName orig dest c = some (g, "Not your turn")) ∧
    (∀ playerName (orig dest : Int × Int) c, t.name = playerName →
      (orig.1 < 0 ∨ 5 < orig.1 ∨ orig.2 < 0 ∨ 5 < orig.2) →
      g.move_piece playerName orig dest c = some (g, "Invalid location")) ∧
    (∀ playerName (orig dest : Int × Int) c, t.name = playerName →
      ¬(orig.1 < 0 ∨ 5 < orig.1 ∨ orig.2 < 0 ∨ 5 < orig.2) →
      (dest.1 < 0 ∨ 5 < dest.1 ∨ dest.2 < 0 ∨ 5 < dest.2) →
      g.move_piece playerName orig dest c = some (g, "Invalid location")) ∧
    (∀ playerName (orig dest : Int × Int) c, t.name = playerName →
      ¬(orig.1 < 0 ∨ 5 < orig.1 ∨ orig.2 < 0 ∨ 5 < orig.2) →
      ¬(dest.1 < 0 ∨ 5 < dest.1 ∨ dest.2 < 0 ∨ 5 < dest.2) →
      |orig.1 - dest.1| + |orig.2 - dest.2| ≠ c →
      g.move_piece playerName orig dest c = some (g, "Invalid number of spaces")) ∧
    (∀ playerName (oy ox dy dx : Int) c, t.name = playerName →
      ¬(oy < 0 ∨ 5 < oy ∨ ox < 0 ∨ 5 < ox) →
      ¬(dy < 0 ∨ 5 < dy ∨ dx < 0 ∨ 5 < dx) →
      |oy - dy| + |ox - dx| = c →
      ((g.board.getCell oy.toNat ox.toNat).length : Int) < c →
      g.move_piece playerName (oy, ox) (dy, dx) c =
        some (g, "Invalid number of pieces")) ∧
    (∀ playerName (oy ox dy dx : Int) c top, t.name = playerName →
      ¬(oy < 0 ∨ 5 < oy ∨ ox < 0 ∨ 5 < ox) →
      ¬(dy < 0 ∨ 5 < dy ∨ dx < 0 ∨ 5 < dx) →
      |oy - dy| + |ox - dx| = c →
      c ≤ ((g.board.getCell oy.toNat ox.toNat).length : Int) →
      (g.board.getCell oy.toNat ox.toNat).getLast? = some top → top ≠ t.color →
      g.move_piece playerName (oy, ox) (dy, dx) c =
        some (g, "Invalid selection -- not your color")) ∧
    (∀ playerName dest, g.show_reserve playerName = ShowResult.num 0 →
      g.reserved_move playerName dest = some (g, "No pieces in reserve")) := by
  refine ⟨?_, ?_, ?_, ?_, ?_, ?_, ?_⟩
  · intro pn orig dest c h; exact move_fail_wrong_turn ht h orig dest c
  · intro pn orig dest c hn ho; exact move_fail_oob_orig ht hn ho dest c
  · intro pn orig dest c hn ho hd; exact move_fail_oob_dest ht hn ho hd c
  · intro pn orig dest c hn ho hd hdist; exact move_fail_distance ht hn ho hd hdist
  · intro pn oy ox dy dx c hn ho hd hdist hlen
    exact move_fail_pieces ht hn ho hd hdist hlen
  · intro pn oy ox dy dx c top hn ho hd hdist hlen htop hcol
    exact move_fail_color ht hn ho hd hdist hlen htop hcol
  · intro pn dest h; exact rsv_fail_empty h dest

/-- C2, witness: in state `gW` (Alice to move), Bob's move attempt fails with
"Not your turn" and returns `gW` itself, and Alice's empty-reserve placement
fails with "No pieces in reserve" and returns `gW` itself. -/
theorem C2_witness :
    gW.turn = some infoAlice ∧ infoAlice.name ≠ "Bob" ∧
    gW.move_piece "Bob" ((0 : Int), (0 : Int)) ((0 : Int), (1 : Int)) 1 =
      some (gW, "Not your turn") ∧
    gW.show_reserve "Alice" = ShowResult.num 0 ∧
    gW.reserved_move "Alice" ((0 : Int), (0 : Int)) =
      some (gW, "No pieces in reserve") :=
  ⟨rfl, by decide,
    (C2_failures_leave_state_unchanged gW infoAlice rfl).1 "Bob"
      ((0 : Int), (0 : Int)) ((0 : Int), (1 : Int)) 1 (by decide),
    rfl,
    (C2_failures_leave_state_unchanged gW infoAlice rfl).2.2.2.2.2.2 "Alice"
      ((0 : Int), (0 : Int)) rfl⟩

/-! ## C8 -/

/-- C8, counterexample.  In the fresh session, after Alice's accepted move
(0,0)→(0,1) with count 1, the destination stack is `["R", "R"]` — both the
piece that started at (0,1) and Alice's moved piece are color R (the fixed
starting grid has `"R"` at both (0,0) and (0,1)), so the claimed stack with
Bob's "G" beneath Alice's "R" does not occur (read either bottom-to-top or
top-to-bottom). -/
theorem C8_counterexample :
    (gAB.move_piece "Alice" (0, 0) (0, 1) 1).map
        (fun p => p.1.board.getCell 0 1) = some ["R", "R"] ∧
    (["R", "R"] : List String) ≠ ["G", "R"] ∧
    (["R", "R"] : List String) ≠ ["R", "G"] :=
  ⟨by decide, by decide, by decide⟩

/-- C8, amended.  In the fresh session `FocusGame(("Alice","R"),("Bob","G"))`,
the starting cells (0,0) and (0,1) each hold one piece of color R; Alice's
first move (0,0)→(0,1) with count 1 returns "Successfully moved", leaves the
origin (0,0) empty, and leaves the destination (0,1) holding the two-piece
stack with the R that started at (0,1) beneath Alice's moved R on top — no G
piece is involved. -/
theorem C8_first_move_scenario :
    gAB.board.getCell 0 0 = ["R"] ∧
    gAB.board.getCell 0 1 = ["R"] ∧
    (gAB.move_piece "Alice" (0, 0) (0, 1) 1).map
        (fun p => (p.2, p.1.board.getCell 0 0, p.1.board.getCell 0 1)) =
      some ("Successfully moved", [], ["R", "R"]) :=
  ⟨rfl, rfl, by decide⟩

/-! ## C3 -/

theorem getCell_moveCounters (b : Board) (playerName : String) (ov : List String)
    (y x : Nat) : (moveCounters b playerName ov).getCell y x = b.getCell y x := by
  unfold moveCounters
  split_ifs <;> rfl

/-- C3.  `Board.move_piece` (with the stray token of source line 174 elided,
see its doc comment) transfers exactly the top `count` pieces: after an
executed move between distinct in-bounds cells with `count` within the origin
stack and no overflow, the origin keeps only its bottom `size - count`
pieces (so it is emptied when `count = size`), and the destination is its old
stack with the moved sub-stack concatenated on top in original relative
order, the origin's former top ending on top. -/
theorem C3_executeMove_transfer (b : Board) (playerName : String)
    {oy ox dy dx : Int} (c : Int) (hWF : b.WF)
    (hbnd : 0 ≤ oy ∧ oy ≤ 5 ∧ 0 ≤ ox ∧ ox ≤ 5 ∧ 0 ≤ dy ∧ dy ≤ 5 ∧ 0 ≤ dx ∧ dx ≤ 5)
    (hne : (oy, ox) ≠ (dy, dx))
    (hcnt : c.toNat ≤ (b.getCell oy.toNat ox.toNat).length)
    (hnoov : (b.getCell dy.toNat dx.toNat).length + c.toNat ≤ 5) :
    ∃ b1 msg, b.move_piece playerName (oy, ox) (dy, dx) c = some (b1, msg) ∧
      b1.getCell oy.toNat ox.toNat =
        (b.getCell oy.toNat ox.toNat).take
          ((b.getCell oy.toNat ox.toNat).length - c.toNat) ∧
      b1.getCell dy.toNat dx.toNat =
        b.getCell dy.toNat dx.toNat ++
          (b.getCell oy.toNat ox.toNat).drop
            ((b.getCell oy.toNat ox.toNat).length - c.toNat) ∧
      (c.toNat = (b.getCell oy.toNat ox.toNat).length →
        b1.getCell oy.toNat ox.toNat = []) := by
  obtain ⟨h1, h2, h3, h4, h5, h6, h7, h8⟩ := hbnd
  have hneN : ¬(oy.toNat = dy.toNat ∧ ox.toNat = dx.toNat) := by
    simp only [Ne, Prod.mk.injEq, not_and] at hne
    intro hand
    rcases Decidable.em (oy = dy) with hq | hq
    · exact hne hq (by omega)
    · omega
  have hneN' : ¬(dy.toNat = oy.toNat ∧ dx.toNat = ox.toNat) :=
    fun hand => hneN ⟨hand.1.symm, hand.2.symm⟩
  set yo := oy.toNat
  set xo := ox.toNat
  set yd := dy.toNat
  set xd := dx.toNat
  set orig0 := b.getCell yo xo with horig0
  set dest0 := b.getCell yd xd with hdest0
  have hWF1 : (b.setCell yo xo (restOf orig0 c.toNat)).WF :=
    Board.WF_setCell hWF yo xo _
  have hb1d : (b.setCell yo xo (restOf orig0 c.toNat)).getCell yd xd = dest0 :=
    Board.getCell_setCell_ne b _ hneN'
  have hpushed : pushedOf b yo xo yd xd c.toNat = dest0 ++ movedRev orig0 c.toNat := by
    rw [pushedOf, hb1d]
  have hplen : (pushedOf b yo xo yd xd c.toNat).length ≤ 5 := by
    rw [hpushed, List.length_append, length_movedRev]
    omega
  have hdf : destFinalOf b yo xo yd xd c.toNat =
      dest0 ++ orig0.drop (orig0.length - c.toNat) := by
    rw [destFinalOf]
    simp only [if_neg (by omega : ¬ 5 < (pushedOf b yo xo yd xd c.toNat).length)]
    rw [hpushed, movedRev_eq_drop hcnt]
  refine ⟨(moveOutcome b playerName yo xo yd xd c.toNat).1,
    (moveOutcome b playerName yo xo yd xd c.toNat).2,
    board_move_spec b playerName c h1 h2 h3 h4 h5 h6 h7 h8 hcnt, ?_, ?_, ?_⟩
  · simp only [moveOutcome, getCell_moveCounters]
    rw [Board.getCell_setCell_ne _ _ hneN,
      Board.getCell_setCell_self hWF (by omega) (by omega),
      restOf_eq_take hcnt]
  · simp only [moveOutcome, getCell_moveCounters]
    rw [Board.getCell_setCell_self hWF1 (by omega) (by omega), hdf]
  · intro hfull
    simp only [moveOutcome, getCell_moveCounters]
    rw [Board.getCell_setCell_ne _ _ hneN,
      Board.getCell_setCell_self hWF (by omega) (by omega),
      restOf_eq_take hcnt, hfull]
    simp

theorem mkBoard_WF (iA iB : PlayerInfo) : (Board.mkBoard iA iB).WF := by
  refine ⟨rfl, ?_⟩
  intro r hr
  fin_cases hr <;> rfl

/-- C3, witness: on the starting board, moving 1 piece from (0,0) to (0,1)
empties (0,0) and stacks the moved R on top of the R at (0,1). -/
theorem C3_witness :
    (Board.mkBoard infoAlice infoBob).WF ∧
    (Board.mkBoard infoAlice infoBob).getCell 0 0 = ["R"] ∧
    (∃ b1 msg, (Board.mkBoard infoAlice infoBob).move_piece "Alice"
        ((0 : Int), (0 : Int)) ((0 : Int), (1 : Int)) 1 = some (b1, msg) ∧
      b1.getCell (0 : Int).toNat (0 : Int).toNat =
        ((Board.mkBoard infoAlice infoBob).getCell (0 : Int).toNat
          (0 : Int).toNat).take
          (((Board.mkBoard infoAlice infoBob).getCell (0 : Int).toNat
            (0 : Int).toNat).length - (1 : Int).toNat) ∧
      b1.getCell (0 : Int).toNat (1 : Int).toNat =
        (Board.mkBoard infoAlice infoBob).getCell (0 : Int).toNat
            (1 : Int).toNat ++
          ((Board.mkBoard infoAlice infoBob).getCell (0 : Int).toNat
            (0 : Int).toNat).drop
            (((Board.mkBoard infoAlice infoBob).getCell (0 : Int).toNat
              (0 : Int).toNat).length - (1 : Int).toNat) ∧
      ((1 : Int).toNat = ((Board.mkBoard infoAlice infoBob).getCell
          (0 : Int).toNat (0 : Int).toNat).length →
        b1.getCell (0 : Int).toNat (0 : Int).toNat = [])) :=
  ⟨mkBoard_WF infoAlice infoBob, rfl,
    C3_executeMove_transfer (Board.mkBoard infoAlice infoBob) "Alice" 1
      (mkBoard_WF infoAlice infoBob) (by decide) (by decide) (by decide)
      (by decide)⟩

/-! ## Projection lemmas: cell updates never touch counters or player info -/

@[simp] theorem Board.infoA_setCell (b : Board) (y x : Nat) (st : List String) :
    (b.setCell y x st).infoA = b.infoA := rfl

@[simp] theorem Board.infoB_setCell (b : Board) (y x : Nat) (st : List String) :
    (b.setCell y x st).infoB = b.infoB := rfl

@[simp] theorem Board.reserveA_setCell (b : Board) (y x : Nat) (st : List String) :
    (b.setCell y x st).reserveA = b.reserveA := rfl

@[simp] theorem Board.reserveB_setCell (b : Board) (y x : Nat) (st : List String) :
    (b.setCell y x st).reserveB = b.reserveB := rfl

@[simp] theorem Board.capturedA_setCell (b : Board) (y x : Nat) (st : List String) :
    (b.setCell y x st).capturedA = b.capturedA := rfl

@[simp] theorem Board.capturedB_setCell (b : Board) (y x : Nat) (st : List String) :
    (b.setCell y x st).capturedB = b.capturedB := rfl

@[simp] theorem infoA_moveCounters (b : Board) (playerName : String)
    (ov : List String) : (moveCounters b playerName ov).infoA = b.infoA := by
  unfold moveCounters; split_ifs <;> rfl

@[simp] theorem infoB_moveCounters (b : Board) (playerName : String)
    (ov : List String) : (moveCounters b playerName ov).infoB = b.infoB := by
  unfold moveCounters; split_ifs <;> rfl

theorem cells_moveCounters (b : Board) (playerName : String) (ov : List String) :
    (moveCounters b playerName ov).cells = b.cells := by
  unfold moveCounters; split_ifs <;> rfl

/-- Pieces are only ever the two session colors; under that assumption, the
"not my color" filter and the "opponent color" filter agree. -/
theorem filter_not_own_eq_filter_opp (ov : List String) (cA cB : String)
    (hcolors : ∀ p ∈ ov, p = cA ∨ p = cB) (hne : cA ≠ cB) :
    ov.filter (fun p => !(p == cA)) = ov.filter (fun p => p == cB) := by
  apply List.filter_congr
  intro p hp
  rcases hcolors p hp with rfl | rfl
  · simp [hne]
  · simp [Ne.symm hne]

/-! ## C5 -/

/-- C5, confirmed.  For an accepted move, the overflow batch is accounted
into the counters of the acting player only: the reserve grows by the number
of overflow pieces of the acting player's own color and the captured counter
by the number of overflow pieces of the opponent's color (given that every
piece carries one of the two distinct session colors); the other player's
counters are untouched. -/
theorem C5_overflow_counters (g : FocusGame) (t : PlayerInfo) (playerName : String)
    {oy ox dy dx : Int} (c : Int)
    (ht : g.turn = some t) (hn : t.name = playerName)
    (hbnd : 0 ≤ oy ∧ oy ≤ 5 ∧ 0 ≤ ox ∧ ox ≤ 5 ∧ 0 ≤ dy ∧ dy ≤ 5 ∧ 0 ≤ dx ∧ dx ≤ 5)
    (hdist : |oy - dy| + |ox - dx| = c)
    (hcnt : c ≤ ((g.board.getCell oy.toNat ox.toNat).length : Int))
    (htop : (g.board.getCell oy.toNat ox.toNat).getLast? = some t.color)
    (hcolors : ∀ p ∈ overflowOf g.board oy.toNat ox.toNat dy.toNat dx.toNat c.toNat,
      p = g.board.infoA.color ∨ p = g.board.infoB.color)
    (hcc : g.board.infoA.color ≠ g.board.infoB.color) :
    ∃ g1 msg, g.move_piece playerName (oy, ox) (dy, dx) c = some (g1, msg) ∧
      (playerName = g.board.infoA.name →
        g1.board.reserveA = g.board.reserveA +
          (((overflowOf g.board oy.toNat ox.toNat dy.toNat dx.toNat c.toNat).filter
            (fun p => p == g.board.infoA.color)).length : Int) ∧
        g1.board.capturedA = g.board.capturedA +
          (((overflowOf g.board oy.toNat ox.toNat dy.toNat dx.toNat c.toNat).filter
            (fun p => p == g.board.infoB.color)).length : Int) ∧
        g1.board.reserveB = g.board.reserveB ∧
        g1.board.capturedB = g.board.capturedB) ∧
      (playerName ≠ g.board.infoA.name → playerName = g.board.infoB.name →
        g1.board.reserveB = g.board.reserveB +
          (((overflowOf g.board oy.toNat ox.toNat dy.toNat dx.toNat c.toNat).filter
            (fun p => p == g.board.infoB.color)).length : Int) ∧
        g1.board.capturedB = g.board.capturedB +
          (((overflowOf g.board oy.toNat ox.toNat dy.toNat dx.toNat c.toNat).filter
            (fun p => p == g.board.infoA.color)).length : Int) ∧
        g1.board.reserveA = g.board.reserveA ∧
        g1.board.capturedA = g.board.capturedA) := by
  have hspec := game_move_spec g t playerName c ht hn hbnd hdist hcnt htop
  refine ⟨_, _, hspec, ?_, ?_⟩
  · intro hA
    have hb : ({ g with
        turn := g.offTurn
        offTurn := g.turn
        board := (moveOutcome g.board playerName oy.toNat ox.toNat
                    dy.toNat dx.toNat c.toNat).1 } : FocusGame).board =
        (moveOutcome g.board playerName oy.toNat ox.toNat
          dy.toNat dx.toNat c.toNat).1 := rfl
    rw [hb]
    simp only [moveOutcome, moveCounters, Board.infoA_setCell, Board.infoB_setCell,
      Board.reserveA_setCell, Board.reserveB_setCell, Board.capturedA_setCell,
      Board.capturedB_setCell, if_pos hA]
    refine ⟨by trivial, ?_, by trivial, by trivial⟩
    rw [filter_not_own_eq_filter_opp _ _ _ hcolors hcc]
  · intro hA hB
    have hb : ({ g with
        turn := g.offTurn
        offTurn := g.turn
        board := (moveOutcome g.board playerName oy.toNat ox.toNat
                    dy.toNat dx.toNat c.toNat).1 } : FocusGame).board =
        (moveOutcome g.board playerName oy.toNat ox.toNat
          dy.toNat dx.toNat c.toNat).1 := rfl
    rw [hb]
    have hcolors2 : ∀ p ∈ overflowOf g.board oy.toNat ox.toNat dy.toNat dx.toNat
        c.toNat, p = g.board.infoB.color ∨ p = g.board.infoA.color :=
      fun p hp => (hcolors p hp).symm
    simp only [moveOutcome, moveCounters, Board.infoA_setCell, Board.infoB_setCell,
      Board.reserveA_setCell, Board.reserveB_setCell, Board.capturedA_setCell,
      Board.capturedB_setCell, if_neg hA, if_pos hB]
    refine ⟨by trivial, ?_, by trivial, by trivial⟩
    rw [filter_not_own_eq_filter_opp _ _ _ hcolors2 (Ne.symm hcc)]

/-- C5, witness: Alice's opening move (0,0)→(0,1) in state `gW` is accepted
with an empty overflow batch, so every counter keeps its value. -/
theorem C5_witness :
    gW.turn = some infoAlice ∧ infoAlice.name = "Alice" ∧
    (∀ p ∈ overflowOf gW.board 0 0 0 1 1,
      p = gW.board.infoA.color ∨ p = gW.board.infoB.color) ∧
    gW.board.infoA.color ≠ gW.board.infoB.color ∧
    (∃ g1 msg, gW.move_piece "Alice" ((0 : Int), (0 : Int)) ((0 : Int), (1 : Int)) 1 =
        some (g1, msg) ∧
      ("Alice" = gW.board.infoA.name →
        g1.board.reserveA = gW.board.reserveA +
          (((overflowOf gW.board 0 0 0 1 1).filter
            (fun p => p == gW.board.infoA.color)).length : Int) ∧
        g1.board.capturedA = gW.board.capturedA +
          (((overflowOf gW.board 0 0 0 1 1).filter
            (fun p => p == gW.board.infoB.color)).length : Int) ∧
        g1.board.reserveB = gW.board.reserveB ∧
        g1.board.capturedB = gW.board.capturedB) ∧
      ("Alice" ≠ gW.board.infoA.name → "Alice" = gW.board.infoB.name →
        g1.board.reserveB = gW.board.reserveB +
          (((overflowOf gW.board 0 0 0 1 1).filter
            (fun p => p == gW.board.infoB.color)).length : Int) ∧
        g1.board.capturedB = gW.board.capturedB +
          (((overflowOf gW.board 0 0 0 1 1).filter
            (fun p => p == gW.board.infoA.color)).length : Int) ∧
        g1.board.reserveA = gW.board.reserveA ∧
        g1.board.capturedA = gW.board.capturedA)) :=
  ⟨rfl, rfl, by decide, by decide,
    C5_overflow_counters gW infoAlice "Alice" 1 rfl rfl (by decide) (by decide)
      (by decide) (by decide) (by decide) (by decide)⟩

/-! ## C6 -/

/-- C6, confirmed.  For every accepted move (with the two registered names
distinct), the returned message is player A's win announcement iff player A's
post-move captured counter is at least 6; it is player B's win announcement
iff player B's counter is at least 6 *and* player A's is below 6 (player A is
checked first, so A wins ties); and it is the plain success acknowledgement
iff both counters are below 6. -/
theorem C6_win_message (g : FocusGame) (t : PlayerInfo) (playerName : String)
    {oy ox dy dx : Int} (c : Int)
    (ht : g.turn = some t) (hn : t.name = playerName)
    (hbnd : 0 ≤ oy ∧ oy ≤ 5 ∧ 0 ≤ ox ∧ ox ≤ 5 ∧ 0 ≤ dy ∧ dy ≤ 5 ∧ 0 ≤ dx ∧ dx ≤ 5)
    (hdist : |oy - dy| + |ox - dx| = c)
    (hcnt : c ≤ ((g.board.getCell oy.toNat ox.toNat).length : Int))
    (htop : (g.board.getCell oy.toNat ox.toNat).getLast? = some t.color)
    (hAB : g.board.infoA.name ≠ g.board.infoB.name) :
    ∃ g1 msg, g.move_piece playerName (oy, ox) (dy, dx) c = some (g1, msg) ∧
      ((msg = g.board.infoA.name ++ " Wins!") ↔ 6 ≤ g1.board.capturedA) ∧
      ((msg = g.board.infoB.name ++ " Wins!") ↔
        (6 ≤ g1.board.capturedB ∧ g1.board.capturedA < 6)) ∧
      ((msg = "Successfully moved") ↔
        (g1.board.capturedA < 6 ∧ g1.board.capturedB < 6)) := by
  have hspec := game_move_spec g t playerName c ht hn hbnd hdist hcnt htop
  refine ⟨_, _, hspec, ?_⟩
  have hb : ({ g with
      turn := g.offTurn
      offTurn := g.turn
      board := (moveOutcome g.board playerName oy.toNat ox.toNat
                  dy.toNat dx.toNat c.toNat).1 } : FocusGame).board =
      (moveOutcome g.board playerName oy.toNat ox.toNat
        dy.toNat dx.toNat c.toNat).1 := rfl
  rw [hb]
  set b3 := (moveOutcome g.board playerName oy.toNat ox.toNat
    dy.toNat dx.toNat c.toNat).1 with hb3
  have hmsg : (moveOutcome g.board playerName oy.toNat ox.toNat
      dy.toNat dx.toNat c.toNat).2 = moveMsg b3 := rfl
  have hiA : b3.infoA = g.board.infoA := by
    rw [hb3]; simp only [moveOutcome]; rw [infoA_moveCounters]; simp
  have hiB : b3.infoB = g.board.infoB := by
    rw [hb3]; simp only [moveOutcome]; rw [infoB_moveCounters]; simp
  rw [hmsg]
  unfold moveMsg
  rw [hiA, hiB]
  split_ifs with hA hB
  · refine ⟨iff_of_true rfl hA, ?_, ?_⟩
    · refine iff_of_false (fun h => hAB (wins_inj h)) ?_
      rintro ⟨-, hlt⟩; omega
    · refine iff_of_false (fun h => wins_ne_of_getLast _ _ (by decide) h) ?_
      rintro ⟨hlt, -⟩; omega
  · refine ⟨?_, iff_of_true rfl ⟨hB, by omega⟩, ?_⟩
    · exact iff_of_false (fun h => hAB (wins_inj h).symm) (by omega)
    · refine iff_of_false (fun h => wins_ne_of_getLast _ _ (by decide) h) ?_
      rintro ⟨-, hlt⟩; omega
  · refine ⟨?_, ?_, iff_of_true rfl ⟨by omega, by omega⟩⟩
    · exact iff_of_false (fun h => wins_ne_of_getLast _ _ (by decide) h.symm) (by omega)
    · exact iff_of_false (fun h => wins_ne_of_getLast _ _ (by decide) h.symm) (by omega)

/-- C6, witness: Alice's opening move in `gW` is accepted; no counter reaches
6, so the message is exactly "Successfully moved". -/
theorem C6_witness :
    gW.turn = some infoAlice ∧ infoAlice.name = "Alice" ∧
    gW.board.infoA.name ≠ gW.board.infoB.name ∧
    (∃ g1 msg, gW.move_piece "Alice" ((0 : Int), (0 : Int)) ((0 : Int), (1 : Int)) 1 =
        some (g1, msg) ∧
      ((msg = gW.board.infoA.name ++ " Wins!") ↔ 6 ≤ g1.board.capturedA) ∧
      ((msg = gW.board.infoB.name ++ " Wins!") ↔
        (6 ≤ g1.board.capturedB ∧ g1.board.capturedA < 6)) ∧
      ((msg = "Successfully moved") ↔
        (g1.board.capturedA < 6 ∧ g1.board.capturedB < 6))) :=
  ⟨rfl, rfl, by decide,
    C6_win_message gW infoAlice "Alice" 1 rfl rfl (by decide) (by decide)
      (by decide) (by decide) (by decide)⟩

/-! ## Characterizing `rsvOutcome` -/

theorem Board.WF_of_cells {b b' : Board} (h : b'.cells = b.cells) (hb : b.WF) :
    b'.WF := by
  unfold Board.WF at hb ⊢
  rw [h]
  exact hb

theorem rsvOutcome_A (b : Board) {playerName : String} (y x : Nat)
    (hWF : b.WF) (hy : y < 6) (hx : x < 6) (hA : playerName = b.infoA.name) :
    (rsvOutcome b playerName y x).reserveA = b.reserveA - 1 ∧
    (rsvOutcome b playerName y x).reserveB = b.reserveB ∧
    (rsvOutcome b playerName y x).capturedA = b.capturedA ∧
    (rsvOutcome b playerName y x).capturedB = b.capturedB ∧
    (rsvOutcome b playerName y x).getCell y x =
      (if 5 < (b.getCell y x ++ [b.infoA.color]).length
       then (b.getCell y x ++ [b.infoA.color]).tail
       else b.getCell y x ++ [b.infoA.color]) := by
  have hcell : (b.setCell y x (b.getCell y x ++ [b.infoA.color])).getCell y x =
      b.getCell y x ++ [b.infoA.color] :=
    Board.getCell_setCell_self hWF hy hx _
  have hWFapp : (b.setCell y x (b.getCell y x ++ [b.infoA.color])).WF :=
    Board.WF_setCell hWF y x _
  unfold rsvOutcome
  simp only [if_pos hA, Board.reserveA_setCell]
  have hcell1 : ({ b.setCell y x (b.getCell y x ++ [b.infoA.color]) with
      reserveA := b.reserveA - 1 } : Board).getCell y x =
      b.getCell y x ++ [b.infoA.color] := hcell
  rw [hcell1]
  split_ifs with hlen
  · have hWF1 : ({ b.setCell y x (b.getCell y x ++ [b.infoA.color]) with
        reserveA := b.reserveA - 1 } : Board).WF :=
      Board.WF_of_cells rfl hWFapp
    refine ⟨rfl, rfl, rfl, rfl, ?_⟩
    rw [Board.getCell_setCell_self hWF1 hy hx]
  · exact ⟨rfl, rfl, rfl, rfl, hcell1⟩

theorem rsvOutcome_B (b : Board) {playerName : String} (y x : Nat)
    (hWF : b.WF) (hy : y < 6) (hx : x < 6)
    (hA : playerName ≠ b.infoA.name) (hB : playerName = b.infoB.name) :
    (rsvOutcome b playerName y x).reserveA = b.reserveA ∧
    (rsvOutcome b playerName y x).reserveB = b.reserveB ∧
    (rsvOutcome b playerName y x).capturedA = b.capturedA ∧
    (rsvOutcome b playerName y x).capturedB = b.capturedB ∧
    (rsvOutcome b playerName y x).getCell y x =
      (if 5 < (b.getCell y x ++ [b.infoB.color]).length
       then (b.getCell y x ++ [b.infoB.color]).tail
       else b.getCell y x ++ [b.infoB.color]) := by
  have hcell : (b.setCell y x (b.getCell y x ++ [b.infoB.color])).getCell y x =
      b.getCell y x ++ [b.infoB.color] :=
    Board.getCell_setCell_self hWF hy hx _
  have hWFapp : (b.setCell y x (b.getCell y x ++ [b.infoB.color])).WF :=
    Board.WF_setCell hWF y x _
  unfold rsvOutcome
  simp only [if_neg hA, if_pos hB]
  rw [hcell]
  split_ifs with hlen
  · exact ⟨rfl, rfl, rfl, rfl, Board.getCell_setCell_self hWFapp hy hx _⟩
  · exact ⟨rfl, rfl, rfl, rfl, hcell⟩

theorem rsvOutcome_other (b : Board) {playerName : String} {y x : Nat}
    (hA : playerName ≠ b.infoA.name) (hB : playerName ≠ b.infoB.name)
    (hlen : (b.getCell y x).length ≤ 5) :
    rsvOutcome b playerName y x = b := by
  unfold rsvOutcome
  simp only [if_neg hA, if_neg hB]
  rw [if_neg (by omega)]

theorem getLast?_tail_concat {l : List String} {a : String} (h : l ≠ []) :
    ((l ++ [a]).tail).getLast? = some a := by
  cases l with
  | nil => exact absurd rfl h
  | cons m ms => simp [List.getLast?_concat]

/-! ## C7 -/

/-- C7, confirmed.  For every accepted reserve placement: when the acting
player is the first registered player, one piece of their color goes on top
of the destination cell (normalized by the > 5 trim) and their reserve count
drops by exactly 1; when the acting player is the second registered player,
a piece is likewise appended but *no* reserve is decremented (the source
omits the decrement in the player-B branch); no captured counter ever
changes. -/
theorem C7_reserve_placement (g : FocusGame) (playerName : String) {dy dx : Int}
    (hWF : g.board.WF)
    (hbnd : 0 ≤ dy ∧ dy ≤ 5 ∧ 0 ≤ dx ∧ dx ≤ 5)
    (hres : g.show_reserve playerName ≠ ShowResult.num 0) :
    ∃ g1, g.reserved_move playerName (dy, dx) = some (g1, "Successfully moved") ∧
      (playerName = g.board.infoA.name →
        g1.board.reserveA = g.board.reserveA - 1 ∧
        g1.board.reserveB = g.board.reserveB ∧
        g1.board.capturedA = g.board.capturedA ∧
        g1.board.capturedB = g.board.capturedB ∧
        g1.board.getCell dy.toNat dx.toNat =
          (if 5 < (g.board.getCell dy.toNat dx.toNat ++ [g.board.infoA.color]).length
           then (g.board.getCell dy.toNat dx.toNat ++ [g.board.infoA.color]).tail
           else g.board.getCell dy.toNat dx.toNat ++ [g.board.infoA.color])) ∧
      (playerName ≠ g.board.infoA.name → playerName = g.board.infoB.name →
        g1.board.reserveA = g.board.reserveA ∧
        g1.board.reserveB = g.board.reserveB ∧
        g1.board.capturedA = g.board.capturedA ∧
        g1.board.capturedB = g.board.capturedB ∧
        g1.board.getCell dy.toNat dx.toNat =
          (if 5 < (g.board.getCell dy.toNat dx.toNat ++ [g.board.infoB.color]).length
           then (g.board.getCell dy.toNat dx.toNat ++ [g.board.infoB.color]).tail
           else g.board.getCell dy.toNat dx.toNat ++ [g.board.infoB.color])) := by
  obtain ⟨h1, h2, h3, h4⟩ := hbnd
  have hspec := game_rsv_spec g playerName hres h1 h2 h3 h4
  refine ⟨_, hspec, ?_, ?_⟩
  · intro hA
    have hb : ({ g with
        turn := g.offTurn
        offTurn := g.turn
        board := rsvOutcome g.board playerName dy.toNat dx.toNat } :
        FocusGame).board = rsvOutcome g.board playerName dy.toNat dx.toNat := rfl
    rw [hb]
    exact rsvOutcome_A g.board dy.toNat dx.toNat hWF (by omega) (by omega) hA
  · intro hA hB
    have hb : ({ g with
        turn := g.offTurn
        offTurn := g.turn
        board := rsvOutcome g.board playerName dy.toNat dx.toNat } :
        FocusGame).board = rsvOutcome g.board playerName dy.toNat dx.toNat := rfl
    rw [hb]
    exact rsvOutcome_B g.board dy.toNat dx.toNat hWF (by omega) (by omega) hA hB

/-- C7, witness: in state `gW` with `reserveA` set to 2, Alice's reserve
placement onto (2,2) is accepted, appends an R on top of the G there, and
drops her reserve to 1; Bob's counters are untouched. -/
theorem C7_witness :
    ({ gW with board := { gW.board with reserveA := 2 } } : FocusGame).board.WF ∧
    ({ gW with board := { gW.board with reserveA := 2 } } :
      FocusGame).show_reserve "Alice" ≠ ShowResult.num 0 ∧
    (∃ g1, ({ gW with board := { gW.board with reserveA := 2 } } :
        FocusGame).reserved_move "Alice" ((2 : Int), (2 : Int)) =
        some (g1, "Successfully moved") ∧
      ("Alice" = ({ gW with board := { gW.board with reserveA := 2 } } :
          FocusGame).board.infoA.name →
        g1.board.reserveA = ({ gW with board := { gW.board with reserveA := 2 } } :
          FocusGame).board.reserveA - 1 ∧
        g1.board.reserveB = gW.board.reserveB ∧
        g1.board.capturedA = gW.board.capturedA ∧
        g1.board.capturedB = gW.board.capturedB ∧
        g1.board.getCell (2 : Int).toNat (2 : Int).toNat =
          (if 5 < (({ gW with board := { gW.board with reserveA := 2 } } :
              FocusGame).board.getCell (2 : Int).toNat (2 : Int).toNat ++
              [gW.board.infoA.color]).length
           then (({ gW with board := { gW.board with reserveA := 2 } } :
              FocusGame).board.getCell (2 : Int).toNat (2 : Int).toNat ++
              [gW.board.infoA.color]).tail
           else ({ gW with board := { gW.board with reserveA := 2 } } :
              FocusGame).board.getCell (2 : Int).toNat (2 : Int).toNat ++
              [gW.board.infoA.color])) ∧
      ("Alice" ≠ ({ gW with board := { gW.board with reserveA := 2 } } :
          FocusGame).board.infoA.name →
        "Alice" = gW.board.infoB.name →
        g1.board.reserveA = ({ gW with board := { gW.board with reserveA := 2 } } :
          FocusGame).board.reserveA ∧
        g1.board.reserveB = gW.board.reserveB ∧
        g1.board.capturedA = gW.board.capturedA ∧
        g1.board.capturedB = gW.board.capturedB ∧
        g1.board.getCell (2 : Int).toNat (2 : Int).toNat =
          (if 5 < (({ gW with board := { gW.board with reserveA := 2 } } :
              FocusGame).board.getCell (2 : Int).toNat (2 : Int).toNat ++
              [gW.board.infoB.color]).length
           then (({ gW with board := { gW.board with reserveA := 2 } } :
              FocusGame).board.getCell (2 : Int).toNat (2 : Int).toNat ++
              [gW.board.infoB.color]).tail
           else ({ gW with board := { gW.board with reserveA := 2 } } :
              FocusGame).board.getCell (2 : Int).toNat (2 : Int).toNat ++
              [gW.board.infoB.color]))) :=
  ⟨⟨rfl, by decide⟩, by decide,
    C7_reserve_placement _ "Alice" (⟨rfl, by decide⟩) (by decide) (by decide)⟩

/-! ## C9 -/

/-- C9, confirmed.  `reserved_move` validates nothing but the reserve count:
with no hypothesis whatsoever about whose turn it is, any caller whose
`show_reserve` is not the integer 0 gets the success acknowledgement and the
turn pointers swap; a registered caller moreover gets a piece of their own
color appended on top of the destination cell.  For registered players,
`show_reserve` is exactly their reserve counter, so a zero reserve
(EmptyReserve) is the only rejection possible. -/
theorem C9_no_turn_check (g : FocusGame) (playerName : String) {dy dx : Int}
    (hWF : g.board.WF)
    (hbnd : 0 ≤ dy ∧ dy ≤ 5 ∧ 0 ≤ dx ∧ dx ≤ 5)
    (hres : g.show_reserve playerName ≠ ShowResult.num 0) :
    ∃ b1, g.reserved_move playerName (dy, dx) =
      some ({ g with turn := g.offTurn, offTurn := g.turn, board := b1 },
        "Successfully moved") ∧
      (playerName = g.board.infoA.name →
        (b1.getCell dy.toNat dx.toNat).getLast? = some g.board.infoA.color) ∧
      (playerName ≠ g.board.infoA.name → playerName = g.board.infoB.name →
        (b1.getCell dy.toNat dx.toNat).getLast? = some g.board.infoB.color) := by
  obtain ⟨h1, h2, h3, h4⟩ := hbnd
  refine ⟨rsvOutcome g.board playerName dy.toNat dx.toNat,
    game_rsv_spec g playerName hres h1 h2 h3 h4, ?_, ?_⟩
  · intro hA
    obtain ⟨-, -, -, -, hcell⟩ := rsvOutcome_A g.board dy.toNat dx.toNat hWF
      (by omega) (by omega) hA
    rw [hcell]
    split_ifs with hlen
    · refine getLast?_tail_concat ?_
      intro hnil
      rw [hnil] at hlen
      simp at hlen
    · exact List.getLast?_concat _
  · intro hA hB
    obtain ⟨-, -, -, -, hcell⟩ := rsvOutcome_B g.board dy.toNat dx.toNat hWF
      (by omega) (by omega) hA hB
    rw [hcell]
    split_ifs with hlen
    · refine getLast?_tail_concat ?_
      intro hnil
      rw [hnil] at hlen
      simp at hlen
    · exact List.getLast?_concat _

/-- C9, witness: in state `gW` with Alice to move and `reserveB` set to 3,
Bob — out of turn — places from reserve onto (0,0); the call is accepted,
the turn swaps to Bob's favour, and a G lands on top of (0,0). -/
theorem C9_witness :
    ({ gW with board := { gW.board with reserveB := 3 } } : FocusGame).board.WF ∧
    ({ gW with board := { gW.board with reserveB := 3 } } :
      FocusGame).show_reserve "Bob" ≠ ShowResult.num 0 ∧
    ({ gW with board := { gW.board with reserveB := 3 } } :
      FocusGame).turn = some infoAlice ∧
    (∃ b1, ({ gW with board := { gW.board with reserveB := 3 } } :
        FocusGame).reserved_move "Bob" ((0 : Int), (0 : Int)) =
        some ({ ({ gW with board := { gW.board with reserveB := 3 } } : FocusGame) with
            turn := ({ gW with board := { gW.board with reserveB := 3 } } :
              FocusGame).offTurn
            offTurn := ({ gW with board := { gW.board with reserveB := 3 } } :
              FocusGame).turn
            board := b1 },
          "Successfully moved") ∧
      ("Bob" = ({ gW with board := { gW.board with reserveB := 3 } } :
          FocusGame).board.infoA.name →
        (b1.getCell (0 : Int).toNat (0 : Int).toNat).getLast? =
          some gW.board.infoA.color) ∧
      ("Bob" ≠ ({ gW with board := { gW.board with reserveB := 3 } } :
          FocusGame).board.infoA.name →
        "Bob" = gW.board.infoB.name →
        (b1.getCell (0 : Int).toNat (0 : Int).toNat).getLast? =
          some gW.board.infoB.color)) :=
  ⟨⟨rfl, by decide⟩, by decide, rfl,
    C9_no_turn_check _ "Bob" (⟨rfl, by decide⟩) (by decide) (by decide)⟩

/-! ## C10 -/

/-- C10, confirmed.  A name matching neither registered player is not
rejected: `show_reserve` returns the sentinel `"Invalid input"`, which is not
equal to the integer 0, so the empty-reserve check passes; the call returns
"Successfully moved" and swaps the turn pointers while the board — cells and
all four counters — is exactly unchanged (the destination stack, being at
most 5 high in any legal state, is not trimmed, and no piece is appended for
an unregistered name). -/
theorem C10_unknown_name_reserve (g : FocusGame) (playerName : String)
    {dy dx : Int}
    (hbnd : 0 ≤ dy ∧ dy ≤ 5 ∧ 0 ≤ dx ∧ dx ≤ 5)
    (hA : playerName ≠ g.board.infoA.name) (hB : playerName ≠ g.board.infoB.name)
    (hlen : (g.board.getCell dy.toNat dx.toNat).length ≤ 5) :
    g.reserved_move playerName (dy, dx) =
      some ({ g with turn := g.offTurn, offTurn := g.turn },
        "Successfully moved") := by
  obtain ⟨h1, h2, h3, h4⟩ := hbnd
  have hres : g.show_reserve playerName ≠ ShowResult.num 0 := by
    simp [FocusGame.show_reserve, Board.show_reserve, hA, hB]
  rw [game_rsv_spec g playerName hres h1 h2 h3 h4,
    rsvOutcome_other g.board hA hB hlen]

/-- C10, witness: in the fresh session, the unregistered caller "Eve" places
from reserve onto (0,0): the call is accepted with "Successfully moved" and
the state is unchanged apart from the (here trivial) turn swap. -/
theorem C10_witness :
    ((0 : Int) ≤ 0 ∧ (0 : Int) ≤ 5 ∧ (0 : Int) ≤ 0 ∧ (0 : Int) ≤ 5) ∧
    "Eve" ≠ gAB.board.infoA.name ∧ "Eve" ≠ gAB.board.infoB.name ∧
    (gAB.board.getCell (0 : Int).toNat (0 : Int).toNat).length ≤ 5 ∧
    gAB.reserved_move "Eve" ((0 : Int), (0 : Int)) =
      some ({ gAB with turn := gAB.offTurn, offTurn := gAB.turn },
        "Successfully moved") :=
  ⟨by decide, by decide, by decide, by decide,
    C10_unknown_name_reserve gAB "Eve" (by decide) (by decide) (by decide)
      (by decide)⟩


/-! ## Reachable states: action sequences over a session -/

/-- One player-initiated action of the public interface. -/
inductive GameAction where
  | mv (playerName : String) (orig dest : Int × Int) (c : Int)
  | rsv (playerName : String) (dest : Int × Int)

/-- Apply one action; a call whose embedding reports a Python crash (`none`)
leaves the state as it was. -/
def stepG (g : FocusGame) : GameAction → FocusGame
  | .mv playerName orig dest c =>
    ((g.move_piece playerName orig dest c).map Prod.fst).getD g
  | .rsv playerName dest =>
    ((g.reserved_move playerName dest).map Prod.fst).getD g

/-- Run a whole sequence of interface calls from a state. -/
def runG (g : FocusGame) (acts : List GameAction) : FocusGame :=
  acts.foldl stepG g

theorem pyIdx_lt {i : Int} {n y : Nat} (hn : 0 < n) (h : pyIdx i n = some y) :
    y < n := by
  unfold pyIdx at h
  split_ifs at h
  injection h with h
  have h1 : (0 : Int) ≤ i % (n : Int) :=
    Int.emod_nonneg i (by exact_mod_cast Nat.pos_iff_ne_zero.mp hn)
  have h2 : i % (n : Int) < (n : Int) :=
    Int.emod_lt_of_pos i (by exact_mod_cast hn)
  omega

theorem lazyInit_board (g : FocusGame) (playerName : String) :
    (g.lazyInit playerName).board = g.board := by
  unfold FocusGame.lazyInit
  split_ifs <;> rfl

theorem lazyInit_idem (g : FocusGame) (playerName : String) :
    (g.lazyInit playerName).lazyInit playerName = g.lazyInit playerName := by
  unfold FocusGame.lazyInit
  by_cases h : g.turn = none
  · rw [if_pos h]
    by_cases hA : playerName = g.infoA.name
    · rw [if_pos hA, if_neg (by simp)]
    · rw [if_neg hA]
      by_cases hB : playerName = g.infoB.name
      · rw [if_pos hB, if_neg (by simp)]
      · rw [if_neg hB, if_pos h, if_neg hA, if_neg hB]
  · rw [if_neg h, if_neg h]

theorem move_piece_lazyInit (g : FocusGame) (playerName : String)
    (orig dest : Int × Int) (c : Int) :
    g.move_piece playerName orig dest c =
      (g.lazyInit playerName).move_piece playerName orig dest c := by
  unfold FocusGame.move_piece
  rw [lazyInit_idem]

theorem move_piece_of_turn_none {g : FocusGame} {playerName : String}
    (h : (g.lazyInit playerName).turn = none) (orig dest : Int × Int) (c : Int) :
    g.move_piece playerName orig dest c = none := by
  unfold FocusGame.move_piece
  simp only [h]

/-- Any `move_piece` call that returns a value either left the board alone
(every validation-failure branch) or executed `moveOutcome` at in-range
resolved coordinates with a count within the origin stack. -/
theorem move_piece_board_cases {g : FocusGame} {playerName : String}
    {orig dest : Int × Int} {c : Int} {g1 : FocusGame} {msg : String}
    (h : g.move_piece playerName orig dest c = some (g1, msg)) :
    g1.board = g.board ∨
    ∃ yo xo yd xd cnt, yo < 6 ∧ xo < 6 ∧ yd < 6 ∧ xd < 6 ∧
      cnt ≤ (g.board.getCell yo xo).length ∧
      g1.board = (moveOutcome g.board playerName yo xo yd xd cnt).1 := by
  obtain ⟨oy, ox⟩ := orig
  obtain ⟨dy, dx⟩ := dest
  rw [move_piece_lazyInit] at h
  set g2 := g.lazyInit playerName with hg2
  have hgb : g2.board = g.board := lazyInit_board g playerName
  cases ht : g2.turn with
  | none =>
    rw [move_piece_of_turn_none (by rw [hg2, lazyInit_idem, ← hg2]; exact ht)] at h
    cases h
  | some t =>
    by_cases hn : t.name = playerName
    · by_cases ho : oy < 0 ∨ 5 < oy ∨ ox < 0 ∨ 5 < ox
      · rw [move_fail_oob_orig ht hn ho ((dy, dx)) c] at h
        injection h with h
        rw [((Prod.mk.injEq _ _ _ _).mp h).1.symm]
        exact Or.inl hgb
      · by_cases hd : dy < 0 ∨ 5 < dy ∨ dx < 0 ∨ 5 < dx
        · rw [move_fail_oob_dest ht hn ho hd c] at h
          injection h with h
          rw [((Prod.mk.injEq _ _ _ _).mp h).1.symm]
          exact Or.inl hgb
        · by_cases hdist : |oy - dy| + |ox - dx| = c
          · by_cases hlen : ((g2.board.getCell oy.toNat ox.toNat).length : Int) < c
            · rw [move_fail_pieces ht hn ho hd hdist hlen] at h
              injection h with h
              rw [((Prod.mk.injEq _ _ _ _).mp h).1.symm]
              exact Or.inl hgb
            · push_neg at hlen
              cases hgl : (g2.board.getCell oy.toNat ox.toNat).getLast? with
              | none =>
                rw [move_crash_empty ht hn ho hd hdist hlen hgl] at h
                cases h
              | some top =>
                by_cases hcol : top = t.color
                · have ho' := ho
                  have hd' := hd
                  push_neg at ho' hd'
                  rw [game_move_spec g2 t playerName c ht hn
                    ⟨ho'.1, ho'.2.1, ho'.2.2.1, ho'.2.2.2,
                     hd'.1, hd'.2.1, hd'.2.2.1, hd'.2.2.2⟩
                    hdist hlen (hcol ▸ hgl)] at h
                  injection h with h
                  have hg1 := ((Prod.mk.injEq _ _ _ _).mp h).1.symm
                  refine Or.inr ⟨oy.toNat, ox.toNat, dy.toNat, dx.toNat, c.toNat,
                    by omega, by omega, by omega, by omega, ?_, ?_⟩
                  · rw [← hgb]
                    omega
                  · rw [hg1, ← hgb]
                · rw [move_fail_color ht hn ho hd hdist hlen hgl hcol] at h
                  injection h with h
                  rw [((Prod.mk.injEq _ _ _ _).mp h).1.symm]
                  exact Or.inl hgb
          · rw [move_fail_distance ht hn ho hd hdist] at h
            injection h with h
            rw [((Prod.mk.injEq _ _ _ _).mp h).1.symm]
            exact Or.inl hgb
    · rw [move_fail_wrong_turn ht (fun he => hn he) ((oy, ox)) ((dy, dx)) c] at h
      injection h with h
      rw [((Prod.mk.injEq _ _ _ _).mp h).1.symm]
      exact Or.inl hgb

/-- Any `reserved_move` call that returns a value either left the board alone
(empty-reserve rejection) or executed `rsvOutcome` at in-range resolved
coordinates. -/
theorem reserved_move_board_cases {g : FocusGame} {playerName : String}
    {dest : Int × Int} {g1 : FocusGame} {msg : String}
    (h : g.reserved_move playerName dest = some (g1, msg)) :
    g1.board = g.board ∨
    ∃ y x, y < 6 ∧ x < 6 ∧ g1.board = rsvOutcome g.board playerName y x := by
  obtain ⟨dy, dx⟩ := dest
  unfold FocusGame.reserved_move at h
  by_cases hres : g.show_reserve playerName = ShowResult.num 0
  · rw [if_pos hres] at h
    injection h with h
    rw [((Prod.mk.injEq _ _ _ _).mp h).1.symm]
    exact Or.inl rfl
  · rw [if_neg hres] at h
    cases hy : pyIdx dy 6 with
    | none =>
      simp only [Board.reserved_move, hy] at h
      exact Option.noConfusion h
    | some y =>
      cases hx : pyIdx dx 6 with
      | none =>
        simp only [Board.reserved_move, hy, hx] at h
        exact Option.noConfusion h
      | some x =>
        simp only [Board.reserved_move, hy, hx] at h
        injection h with h
        have hg1 := ((Prod.mk.injEq _ _ _ _).mp h).1.symm
        refine Or.inr ⟨y, x, pyIdx_lt (by omega) hy, pyIdx_lt (by omega) hx, ?_⟩
        rw [hg1]
        rfl

/-! ## The ≤ 5 stack-height invariant -/

/-- Every cell of the board holds at most 5 pieces. -/
def BoundedB (b : Board) : Prop :=
  ∀ y x : Nat, (b.getCell y x).length ≤ 5

theorem bounded_setCell {b : Board} (hb : BoundedB b) (hWF : b.WF) {y x : Nat}
    (hy : y < 6) (hx : x < 6) {st : List String} (hst : st.length ≤ 5) :
    BoundedB (b.setCell y x st) := by
  intro w v
  by_cases hxy : w = y ∧ v = x
  · obtain ⟨rfl, rfl⟩ := hxy
    rw [Board.getCell_setCell_self hWF hy hx]
    exact hst
  · rw [Board.getCell_setCell_ne b _ hxy]
    exact hb w v

theorem length_destFinalOf (b : Board) (yo xo yd xd cnt : Nat) :
    (destFinalOf b yo xo yd xd cnt).length ≤ 5 := by
  simp only [destFinalOf]
  split_ifs with hlen
  · rw [List.length_drop]
    omega
  · omega

theorem bounded_moveOutcome (b : Board) (playerName : String)
    (yo xo yd xd cnt : Nat) (hWF : b.WF) (hb : BoundedB b)
    (hyo : yo < 6) (hxo : xo < 6) (hyd : yd < 6) (hxd : xd < 6) :
    (moveOutcome b playerName yo xo yd xd cnt).1.WF ∧
    BoundedB (moveOutcome b playerName yo xo yd xd cnt).1 := by
  have hWF1 : (b.setCell yo xo (restOf (b.getCell yo xo) cnt)).WF :=
    Board.WF_setCell hWF yo xo _
  have hb1 : BoundedB (b.setCell yo xo (restOf (b.getCell yo xo) cnt)) := by
    refine bounded_setCell hb hWF hyo hxo ?_
    rw [length_restOf]
    have := hb yo xo
    omega
  have hWF2 : ((b.setCell yo xo (restOf (b.getCell yo xo) cnt)).setCell yd xd
      (destFinalOf b yo xo yd xd cnt)).WF :=
    Board.WF_setCell hWF1 yd xd _
  have hb2 : BoundedB ((b.setCell yo xo (restOf (b.getCell yo xo) cnt)).setCell
      yd xd (destFinalOf b yo xo yd xd cnt)) :=
    bounded_setCell hb1 hWF1 hyd hxd (length_destFinalOf b yo xo yd xd cnt)
  constructor
  · exact Board.WF_of_cells (cells_moveCounters _ playerName _) hWF2
  · intro w v
    rw [show (moveOutcome b playerName yo xo yd xd cnt).1.getCell w v =
      ((b.setCell yo xo (restOf (b.getCell yo xo) cnt)).setCell yd xd
        (destFinalOf b yo xo yd xd cnt)).getCell w v
      from getCell_moveCounters _ playerName _ w v]
    exact hb2 w v

theorem bounded_rsvOutcome (b : Board) (playerName : String) (y x : Nat)
    (hWF : b.WF) (hb : BoundedB b) (hy : y < 6) (hx : x < 6) :
    (rsvOutcome b playerName y x).WF ∧ BoundedB (rsvOutcome b playerName y x) := by
  by_cases hA : playerName = b.infoA.name
  · have hWFapp : (b.setCell y x (b.getCell y x ++ [b.infoA.color])).WF :=
      Board.WF_setCell hWF y x _
    obtain ⟨-, -, -, -, hcell⟩ := rsvOutcome_A b y x hWF hy hx hA
    unfold rsvOutcome
    simp only [if_pos hA]
    have hWF1 : ({ b.setCell y x (b.getCell y x ++ [b.infoA.color]) with
        reserveA := (b.setCell y x (b.getCell y x ++ [b.infoA.color])).reserveA - 1 } :
        Board).WF := Board.WF_of_cells rfl hWFapp
    have hcell1 : ({ b.setCell y x (b.getCell y x ++ [b.infoA.color]) with
        reserveA := (b.setCell y x (b.getCell y x ++ [b.infoA.color])).reserveA - 1 } :
        Board).getCell y x = b.getCell y x ++ [b.infoA.color] :=
      Board.getCell_setCell_self hWF hy hx _
    rw [hcell1]
    split_ifs with hlen
    · refine ⟨Board.WF_setCell hWF1 y x _, ?_⟩
      intro w v
      by_cases hxy : w = y ∧ v = x
      · obtain ⟨rfl, rfl⟩ := hxy
        rw [Board.getCell_setCell_self hWF1 hy hx, List.length_tail]
        have := hb w v
        simp only [List.length_append, List.length_singleton]
        omega
      · rw [Board.getCell_setCell_ne _ _ hxy]
        have hne : ({ b.setCell y x (b.getCell y x ++ [b.infoA.color]) with
            reserveA := (b.setCell y x (b.getCell y x ++ [b.infoA.color])).reserveA - 1 } :
            Board).getCell w v = b.getCell w v :=
          Board.getCell_setCell_ne b _ hxy
        rw [hne]
        exact hb w v
    · refine ⟨hWF1, ?_⟩
      intro w v
      by_cases hxy : w = y ∧ v = x
      · obtain ⟨rfl, rfl⟩ := hxy
        rw [hcell1]
        omega
      · have hne : ({ b.setCell y x (b.getCell y x ++ [b.infoA.color]) with
            reserveA := (b.setCell y x (b.getCell y x ++ [b.infoA.color])).reserveA - 1 } :
            Board).getCell w v = b.getCell w v :=
          Board.getCell_setCell_ne b _ hxy
        rw [hne]
        exact hb w v
  · by_cases hB : playerName = b.infoB.name
    · have hWFapp : (b.setCell y x (b.getCell y x ++ [b.infoB.color])).WF :=
        Board.WF_setCell hWF y x _
      have hcell : (b.setCell y x (b.getCell y x ++ [b.infoB.color])).getCell y x =
          b.getCell y x ++ [b.infoB.color] :=
        Board.getCell_setCell_self hWF hy hx _
      unfold rsvOutcome
      simp only [if_neg hA, if_pos hB]
      rw [hcell]
      split_ifs with hlen
      · refine ⟨Board.WF_setCell hWFapp y x _, ?_⟩
        intro w v
        by_cases hxy : w = y ∧ v = x
        · obtain ⟨rfl, rfl⟩ := hxy
          rw [Board.getCell_setCell_self hWFapp hy hx, List.length_tail]
          have := hb w v
          simp only [List.length_append, List.length_singleton]
          omega
        · rw [Board.getCell_setCell_ne _ _ hxy, Board.getCell_setCell_ne _ _ hxy]
          exact hb w v
      · refine ⟨hWFapp, ?_⟩
        intro w v
        by_cases hxy : w = y ∧ v = x
        · obtain ⟨rfl, rfl⟩ := hxy
          rw [hcell]
          omega
        · rw [Board.getCell_setCell_ne _ _ hxy]
          exact hb w v
    · rw [rsvOutcome_other b hA hB (hb y x)]
      exact ⟨hWF, hb⟩

theorem inv_stepG (g : FocusGame) (a : GameAction)
    (hWF : g.board.WF) (hb : BoundedB g.board) :
    (stepG g a).board.WF ∧ BoundedB (stepG g a).board := by
  cases a with
  | mv playerName orig dest c =>
    cases hres : g.move_piece playerName orig dest c with
    | none =>
      simp only [stepG, hres, Option.map_none', Option.getD_none]
      exact ⟨hWF, hb⟩
    | some p =>
      obtain ⟨g1, msg⟩ := p
      simp only [stepG, hres, Option.map_some', Option.getD_some]
      rcases move_piece_board_cases hres with hsame |
        ⟨yo, xo, yd, xd, cnt, hyo, hxo, hyd, hxd, hcnt, hout⟩
      · rw [hsame]
        exact ⟨hWF, hb⟩
      · rw [hout]
        exact bounded_moveOutcome g.board playerName yo xo yd xd cnt hWF hb
          hyo hxo hyd hxd
  | rsv playerName dest =>
    cases hres : g.reserved_move playerName dest with
    | none =>
      simp only [stepG, hres, Option.map_none', Option.getD_none]
      exact ⟨hWF, hb⟩
    | some p =>
      obtain ⟨g1, msg⟩ := p
      simp only [stepG, hres, Option.map_some', Option.getD_some]
      rcases reserved_move_board_cases hres with hsame | ⟨y, x, hy, hx, hout⟩
      · rw [hsame]
        exact ⟨hWF, hb⟩
      · rw [hout]
        exact bounded_rsvOutcome g.board playerName y x hWF hb hy hx

theorem inv_runG (acts : List GameAction) (g : FocusGame)
    (hWF : g.board.WF) (hb : BoundedB g.board) :
    (runG g acts).board.WF ∧ BoundedB (runG g acts).board := by
  induction acts generalizing g with
  | nil => exact ⟨hWF, hb⟩
  | cons a rest ih =>
    have hstep := inv_stepG g a hWF hb
    exact ih (stepG g a) hstep.1 hstep.2

theorem mkBoard_bounded (iA iB : PlayerInfo) : BoundedB (Board.mkBoard iA iB) := by
  intro y x
  have hcell : ∀ r ∈ startRows, ∀ cell ∈ r, cell.length ≤ 5 := by decide
  unfold Board.getCell
  simp only [List.getD_eq_getElem?_getD]
  cases hrow : (Board.mkBoard iA iB).cells[y]? with
  | none => simp [hrow]
  | some row =>
    simp only [hrow, Option.getD_some]
    cases hc : row[x]? with
    | none => simp [hc]
    | some cell =>
      simp only [hc, Option.getD_some]
      exact hcell row (List.getElem?_mem hrow) cell (List.getElem?_mem hc)

/-! ## C4 -/

/-- C4, confirmed.  (1) In every state reachable from a fresh session by any
sequence of `move_piece` / `reserved_move` calls, every cell of the board
(all 36 on-board cells, and trivially every out-of-range index) holds at most
5 pieces.  (2) When an executed move makes the destination stack `pushed`
exceed 5 pieces, the resulting destination cell is `pushed` with its first
`pushed.length - 5` elements dropped — list index 0 is the bottom of the
stack, so exactly the excess is removed from the bottom, oldest pieces
first. -/
theorem C4_stack_height_invariant :
    (∀ (infoA infoB : PlayerInfo) (acts : List GameAction) (y x : Nat),
      ((runG (FocusGame.mkGame infoA infoB) acts).board.getCell y x).length ≤ 5) ∧
    (∀ (b : Board) (playerName : String) (yo xo yd xd cnt : Nat),
      b.WF → yo < 6 → xo < 6 → yd < 6 → xd < 6 →
      5 < (pushedOf b yo xo yd xd cnt).length →
      (moveOutcome b playerName yo xo yd xd cnt).1.getCell yd xd =
        (pushedOf b yo xo yd xd cnt).drop
          ((pushedOf b yo xo yd xd cnt).length - 5)) := by
  constructor
  · intro infoA infoB acts y x
    exact (inv_runG acts (FocusGame.mkGame infoA infoB)
      (mkBoard_WF infoA infoB) (mkBoard_bounded infoA infoB)).2 y x
  · intro b playerName yo xo yd xd cnt hWF hyo hxo hyd hxd hover
    have hWF1 : (b.setCell yo xo (restOf (b.getCell yo xo) cnt)).WF :=
      Board.WF_setCell hWF yo xo _
    rw [show (moveOutcome b playerName yo xo yd xd cnt).1.getCell yd xd =
      ((b.setCell yo xo (restOf (b.getCell yo xo) cnt)).setCell yd xd
        (destFinalOf b yo xo yd xd cnt)).getCell yd xd
      from getCell_moveCounters _ playerName _ yd xd]
    rw [Board.getCell_setCell_self hWF1 hyd hxd]
    simp only [destFinalOf]
    rw [if_pos hover]

/-- C4, witness: (1) after the two-move sequence Alice (0,0)→(0,1), Bob
(1,0)→(1,1), cell (0,1) holds 2 ≤ 5 pieces; (2) on a starting board whose
cell (0,1) is replaced by a full 5-stack, moving one piece onto it yields the
6-stack trimmed from the bottom, i.e. the drop-1 suffix. -/
theorem C4_witness :
    ((runG (FocusGame.mkGame infoAlice infoBob)
      [GameAction.mv "Alice" (0, 0) (0, 1) 1,
       GameAction.mv "Bob" (1, 0) (1, 1) 1]).board.getCell 0 1).length ≤ 5 ∧
    (((Board.mkBoard infoAlice infoBob).setCell 0 1
        ["R", "G", "R", "G", "R"]).WF ∧
      5 < (pushedOf ((Board.mkBoard infoAlice infoBob).setCell 0 1
        ["R", "G", "R", "G", "R"]) 0 0 0 1 1).length ∧
      (moveOutcome ((Board.mkBoard infoAlice infoBob).setCell 0 1
          ["R", "G", "R", "G", "R"]) "Alice" 0 0 0 1 1).1.getCell 0 1 =
        (pushedOf ((Board.mkBoard infoAlice infoBob).setCell 0 1
          ["R", "G", "R", "G", "R"]) 0 0 0 1 1).drop
          ((pushedOf ((Board.mkBoard infoAlice infoBob).setCell 0 1
            ["R", "G", "R", "G", "R"]) 0 0 0 1 1).length - 5)) :=
  ⟨C4_stack_height_invariant.1 infoAlice infoBob
      [GameAction.mv "Alice" (0, 0) (0, 1) 1,
       GameAction.mv "Bob" (1, 0) (1, 1) 1] 0 1,
    Board.WF_setCell (mkBoard_WF infoAlice infoBob) 0 1 _,
    by decide,
    C4_stack_height_invariant.2 _ "Alice" 0 0 0 1 1
      (Board.WF_setCell (mkBoard_WF infoAlice infoBob) 0 1 _)
      (by decide) (by decide) (by decide) (by decide) (by decide)⟩
